import Mathlib

/-!
Verification development for the svg2pdc conversion library.

The Rust sources are embedded shallowly:

* machine integers (u8, u16, u32) become natural numbers with explicit
  wrapping (percent 256 and so on) at the operations where Rust wraps;
* IEEE-754 single-precision (f32) values become exact rationals, and every
  f32 arithmetic operation is followed by `f32round`, the correct rounding
  to 24 significant bits with ties to even.  All values reached in this
  development lie far inside the normal range of f32, so neither overflow,
  underflow nor subnormals have to be modelled;
* fallible Rust code returns `Except` where it can only return `Result`,
  and `RResult` (which adds a `panicked` constructor) where the source can
  also panic (slicing out of bounds, `unwrap` on a parse);
* external crates (roxmltree, svgtypes, the std float parsers) are
  modelled as oracle functions collected in the `Externals` structure;
  the code of this repository is embedded literally on top of them.
-/

namespace Svg2Pdc

/-! ### Exact model of f32 rounding

A finite f32 in the normal range is a rational of the form
`n * 2 ^ t` with `|n| < 2 ^ 24`.  `f32round q` is the f32 nearest to the
rational `q` (ties to even), computed exactly: with
`e = Int.log 2 |q|` the unit in the last place is `2 ^ (e - 23)` and the
mantissa is obtained by rounding `|q| * 2 ^ (23 - e)` to an integer. -/

/-- Round a rational to the nearest integer, ties to even. -/
def roundHalfEven (q : ℚ) : ℤ :=
  if q - ⌊q⌋ < 1/2 then ⌊q⌋
  else if 1/2 < q - ⌊q⌋ then ⌊q⌋ + 1
  else if ⌊q⌋ % 2 = 0 then ⌊q⌋ else ⌊q⌋ + 1

/-- Correct rounding of an exact rational to f32 precision
(24 significant bits, round to nearest, ties to even). -/
def f32round (q : ℚ) : ℚ :=
  if q = 0 then 0
  else if q < 0 then
    -((roundHalfEven (|q| * 2 ^ ((23 : ℤ) - Int.log 2 |q|)) : ℚ) *
        2 ^ (Int.log 2 |q| - 23))
  else
    (roundHalfEven (|q| * 2 ^ ((23 : ℤ) - Int.log 2 |q|)) : ℚ) *
        2 ^ (Int.log 2 |q| - 23)

/-- `f32::EPSILON`, the machine epsilon of f32, equal to `2 ^ (-23)`. -/
def EPS : ℚ := 2 ^ ((-23 : ℤ))

/-- Rust `f32::round`: round half away from zero.  It is exact on f32
inputs, so it is modelled as an exact operation on rationals. -/
def rustRound (q : ℚ) : ℤ :=
  if q < 0 then -⌊-q + 1/2⌋ else ⌊q + 1/2⌋

/-- Rust `as u8` on an f32: truncate toward zero and saturate to 0..255. -/
def satU8 (q : ℚ) : ℕ := min 255 ⌊q⌋.toNat

/-- Rust `as u16` on an f32: truncate toward zero, saturate to 0..65535. -/
def satU16 (q : ℚ) : ℕ := min 65535 ⌊q⌋.toNat

theorem roundHalfEven_intCast (m : ℤ) : roundHalfEven (m : ℚ) = m := by
  unfold roundHalfEven
  rw [Int.floor_intCast]
  rw [if_pos (by norm_num)]

theorem roundHalfEven_add_lt (A : ℤ) (r : ℚ) (h0 : 0 ≤ r) (h : r < 1/2) :
    roundHalfEven ((A : ℚ) + r) = A := by
  have hfl : ⌊(A : ℚ) + r⌋ = A := by
    rw [Int.floor_eq_iff]
    exact ⟨by linarith, by linarith⟩
  unfold roundHalfEven
  rw [hfl]
  rw [if_pos (by linarith)]

theorem roundHalfEven_add_half_even (A : ℤ) (hA : A % 2 = 0) :
    roundHalfEven ((A : ℚ) + 1/2) = A := by
  have hfl : ⌊(A : ℚ) + 1/2⌋ = A := by
    rw [Int.floor_eq_iff]
    exact ⟨by linarith, by linarith⟩
  unfold roundHalfEven
  rw [hfl]
  rw [if_neg (by linarith), if_neg (by linarith),
    if_pos hA]

theorem roundHalfEven_add_gt (A : ℤ) (r : ℚ) (h : 1/2 < r) (h1 : r < 1) :
    roundHalfEven ((A : ℚ) + r) = A + 1 := by
  have hfl : ⌊(A : ℚ) + r⌋ = A := by
    rw [Int.floor_eq_iff]
    exact ⟨by linarith, by linarith⟩
  unfold roundHalfEven
  rw [hfl]
  rw [if_neg (by linarith), if_pos (by linarith)]

theorem two_zpow_le_iff_le_log {x : ℤ} {q : ℚ} (hq : 0 < q) :
    (2 : ℚ) ^ x ≤ q ↔ x ≤ Int.log 2 q := by
  have h := Int.zpow_le_iff_le_log (R := ℚ) (b := 2) (by norm_num) (x := x) hq
  have hc : ((2 : ℕ) : ℚ) = (2 : ℚ) := by norm_num
  rw [hc] at h
  exact h

theorem two_zpow_log_le {q : ℚ} (hq : 0 < q) :
    (2 : ℚ) ^ Int.log 2 q ≤ q := by
  have h := Int.zpow_log_le_self (R := ℚ) (b := 2) (by norm_num) hq
  have hc : ((2 : ℕ) : ℚ) = (2 : ℚ) := by norm_num
  rw [hc] at h
  exact h

theorem two_lt_zpow_succ_log (q : ℚ) :
    q < (2 : ℚ) ^ (Int.log 2 q + 1) := by
  have h := Int.lt_zpow_succ_log_self (R := ℚ) (b := 2) (by norm_num) q
  have hc : ((2 : ℕ) : ℚ) = (2 : ℚ) := by norm_num
  rw [hc] at h
  exact h

/-- Evaluation scheme for `f32round` on a positive rational: supply the
exponent `e` (certified by the two power bounds) and the rounded
mantissa `A`. -/
theorem f32round_eval (q : ℚ) (e A : ℤ) (hq : 0 < q)
    (h1 : (2 : ℚ) ^ e ≤ q) (h2 : q < 2 ^ (e + 1))
    (h3 : roundHalfEven (q * 2 ^ ((23 : ℤ) - e)) = A) :
    f32round q = (A : ℚ) * 2 ^ (e - 23) := by
  have hlog : Int.log 2 q = e := by
    have hle : e ≤ Int.log 2 q := (two_zpow_le_iff_le_log hq).mp h1
    have hge : Int.log 2 q ≤ e := by
      by_contra hc
      push_neg at hc
      have he1 : e + 1 ≤ Int.log 2 q := by omega
      have h2' : (2 : ℚ) ^ (e + 1) ≤ q := by
        calc (2 : ℚ) ^ (e + 1) ≤ 2 ^ Int.log 2 q :=
              zpow_le_zpow_right₀ (by norm_num) he1
          _ ≤ q := two_zpow_log_le hq
      linarith
    omega
  unfold f32round
  rw [if_neg (ne_of_gt hq), if_neg (not_lt.mpr (le_of_lt hq)),
    abs_of_pos hq, hlog, h3]

/-- Any rational of the form `n * 2 ^ t` with `n < 2 ^ 24` natural is an
exact f32 value, and `f32round` leaves it unchanged.  (All values rounded
in this development are nonnegative, so the nonnegative case suffices.) -/
theorem f32round_repr (n : ℕ) (t : ℤ) (hn : n < 2 ^ 24) :
    f32round ((n : ℚ) * 2 ^ t) = (n : ℚ) * 2 ^ t := by
  rcases Nat.eq_zero_or_pos n with h0 | h0
  · subst h0
    simp [f32round]
  · have h2t : (0 : ℚ) < 2 ^ t := zpow_pos (by norm_num) t
    have hnq : (0 : ℚ) < (n : ℚ) := by exact_mod_cast h0
    have hq : (0 : ℚ) < (n : ℚ) * 2 ^ t := mul_pos hnq h2t
    have hub : (n : ℚ) * 2 ^ t < 2 ^ (t + 24) := by
      have h1 : (n : ℚ) < 2 ^ 24 := by exact_mod_cast hn
      calc (n : ℚ) * 2 ^ t < 2 ^ 24 * 2 ^ t :=
            mul_lt_mul_of_pos_right h1 h2t
        _ = 2 ^ (t + 24) := by
            rw [show ((2 : ℚ) ^ (24 : ℕ)) = (2 : ℚ) ^ ((24 : ℤ)) by norm_num,
              ← zpow_add₀ (by norm_num : (2:ℚ) ≠ 0)]
            ring_nf
    have helb : (2 : ℚ) ^ Int.log 2 ((n : ℚ) * 2 ^ t) ≤ (n : ℚ) * 2 ^ t :=
      two_zpow_log_le hq
    have het : Int.log 2 ((n : ℚ) * 2 ^ t) ≤ t + 23 := by
      by_contra hc
      push_neg at hc
      have h1 : t + 24 ≤ Int.log 2 ((n : ℚ) * 2 ^ t) := by omega
      have h2 : (2 : ℚ) ^ (t + 24) ≤ 2 ^ Int.log 2 ((n : ℚ) * 2 ^ t) :=
        zpow_le_zpow_right₀ (by norm_num) h1
      linarith
    have hmant : (n : ℚ) * 2 ^ t * 2 ^ ((23 : ℤ) - Int.log 2 ((n : ℚ) * 2 ^ t)) =
        (((n : ℤ) * 2 ^ (t + 23 - Int.log 2 ((n : ℚ) * 2 ^ t)).toNat : ℤ) : ℚ) := by
      push_cast
      rw [← zpow_natCast (2 : ℚ) (t + 23 - Int.log 2 ((n : ℚ) * 2 ^ t)).toNat,
        show (((t + 23 - Int.log 2 ((n : ℚ) * 2 ^ t)).toNat : ℤ)) =
          t + 23 - Int.log 2 ((n : ℚ) * 2 ^ t) by omega,
        mul_assoc, ← zpow_add₀ (by norm_num : (2:ℚ) ≠ 0)]
      ring_nf
    unfold f32round
    rw [if_neg (ne_of_gt hq), if_neg (not_lt.mpr (le_of_lt hq)),
      abs_of_pos hq, hmant, roundHalfEven_intCast, ← hmant,
      mul_assoc, ← zpow_add₀ (by norm_num : (2:ℚ) ≠ 0)]
    norm_num

/-- Adding `f32::EPSILON` to a grid value `n / 8` with `2 ≤ n / 8` rounds
back to `n / 8`: the epsilon is at most half an ulp there, and the tie
(reached exactly when `2 ≤ n / 8 < 4`) is resolved downward to the even
mantissa. -/
theorem f32round_grid_add_eps (n : ℕ) (h16 : 16 ≤ n) (hub : n < 2 ^ 24) :
    f32round ((n : ℚ) / 8 + EPS) = (n : ℚ) / 8 := by
  obtain ⟨q, hqdef⟩ : ∃ q : ℚ, q = (n : ℚ) / 8 + EPS := ⟨_, rfl⟩
  rw [← hqdef]
  have hepspos : (0 : ℚ) < EPS := by norm_num [EPS]
  have hn16 : (16 : ℚ) ≤ (n : ℚ) := by exact_mod_cast h16
  have hq2 : (2 : ℚ) ≤ q := by rw [hqdef]; linarith
  have hq0 : (0 : ℚ) < q := by linarith
  obtain ⟨e, he⟩ : ∃ e : ℤ, e = Int.log 2 q := ⟨_, rfl⟩
  have he1 : (1 : ℤ) ≤ e := by
    rw [he, ← two_zpow_le_iff_le_log hq0]
    simpa using hq2
  have hqub : q < 2 ^ (21 : ℤ) := by
    have h1 : (n : ℚ) ≤ 2 ^ 24 - 1 := by
      have h3 : (n : ℤ) ≤ 2 ^ 24 - 1 := by omega
      calc (n : ℚ) = ((n : ℤ) : ℚ) := by norm_num
        _ ≤ ((2 ^ 24 - 1 : ℤ) : ℚ) := by exact_mod_cast h3
        _ = 2 ^ 24 - 1 := by norm_num
    have heps : EPS < (1 : ℚ) / 8 := by norm_num [EPS]
    have h2 : q < (2 ^ 24 - 1 : ℚ) / 8 + 1 / 8 := by
      rw [hqdef]
      linarith
    calc q < (2 ^ 24 - 1 : ℚ) / 8 + 1 / 8 := h2
      _ = 2 ^ 21 := by norm_num
      _ = 2 ^ (21 : ℤ) := by norm_num
  have he20 : e ≤ 20 := by
    by_contra hc
    push_neg at hc
    have h21 : (21 : ℤ) ≤ e := by omega
    have h1 : (2 : ℚ) ^ (21 : ℤ) ≤ 2 ^ e := zpow_le_zpow_right₀ (by norm_num) h21
    have h2 : (2 : ℚ) ^ e ≤ q := by
      rw [he]
      exact two_zpow_log_le hq0
    linarith
  have hq2e : q < 2 ^ (e + 1) := by
    rw [he]
    exact two_lt_zpow_succ_log q
  have hq2e' : (2 : ℚ) ^ e ≤ q := by
    rw [he]
    exact two_zpow_log_le hq0
  obtain ⟨A, hAdef⟩ : ∃ A : ℤ, A = (n : ℤ) * 2 ^ ((20 : ℤ) - e).toNat := ⟨_, rfl⟩
  have hAcast : (A : ℚ) = (n : ℚ) * 2 ^ ((20 : ℤ) - e) := by
    rw [hAdef]
    push_cast
    rw [← zpow_natCast (2 : ℚ) ((20 : ℤ) - e).toNat,
      show ((((20 : ℤ) - e).toNat : ℤ)) = 20 - e by omega]
  have hsplit : q * 2 ^ ((23 : ℤ) - e) = (A : ℚ) + 2 ^ (-e) := by
    rw [hqdef, EPS, hAcast, add_mul]
    congr 1
    · have h8 : ((8 : ℚ)) = 2 ^ ((3 : ℤ)) := by norm_num
      rw [h8, div_mul_eq_mul_div, mul_div_assoc,
        ← zpow_sub₀ (by norm_num : (2:ℚ) ≠ 0)]
      congr 1
      ring_nf
    · rw [← zpow_add₀ (by norm_num : (2:ℚ) ≠ 0)]
      ring_nf
  have hres : roundHalfEven (q * 2 ^ ((23 : ℤ) - e)) = A := by
    rw [hsplit]
    rcases eq_or_lt_of_le he1 with he1' | he2
    · -- e = 1 : exact tie, mantissa A is even
      have hAeven : A % 2 = 0 := by
        have hdvd : (2 : ℤ) ∣ A := by
          rw [hAdef]
          exact Dvd.dvd.mul_left (dvd_pow_self 2 (by omega)) _
        omega
      rw [show ((2 : ℚ) ^ (-e)) = 1 / 2 by rw [← he1']; norm_num]
      exact roundHalfEven_add_half_even A hAeven
    · -- 2 ≤ e : fraction strictly below one half
      apply roundHalfEven_add_lt
      · positivity
      · have h1 : (2 : ℚ) ^ (-e) ≤ 2 ^ ((-2 : ℤ)) :=
          zpow_le_zpow_right₀ (by norm_num) (by omega)
        have h2 : ((2 : ℚ)) ^ ((-2 : ℤ)) = 1 / 4 := by norm_num
        rw [h2] at h1
        linarith
  have hev := f32round_eval q e A hq0 hq2e' hq2e hres
  rw [hev, hAcast, mul_assoc, ← zpow_add₀ (by norm_num : (2:ℚ) ≠ 0)]
  rw [show ((20 : ℤ) - e + (e - 23)) = -3 by ring]
  rw [show ((2 : ℚ) ^ ((-3 : ℤ))) = 1 / 8 by norm_num]
  ring

/-! ### point.rs — data types

`FPoint` is the f32 point type; its operations follow below the error
type (which stores `FPoint`s in the `InvalidPoint` variant). -/

/-- Source: `struct FPoint { x: f32, y: f32 }`. -/
structure FPoint where
  x : ℚ
  y : ℚ
deriving DecidableEq

/-- Source: `enum Precision { Normal, Precise }`. -/
inductive Precision where
  | Normal
  | Precise
deriving DecidableEq

/-- Source: `enum Conversion { ConvertNoWarn, ConvertWarn, RequireExact }`. -/
inductive Conversion where
  | ConvertNoWarn
  | ConvertWarn
  | RequireExact
deriving DecidableEq

/-! ### error.rs -/

/-- Source: `enum Svg2PdcError` (string payloads of library error types
are kept as plain strings). -/
inductive Svg2PdcError where
  | InvalidPoint (point nearest_valid : FPoint)
  | Io (s : String)
  | XmlError (s : String)
  | InvalidViewBox (s : String)
  | InvalidPolyline (s : String)
  | SvgTypesError (s : String)
  | InvalidColor (s : String)
  | UnsupportedCircle
  | ParseError (s : String)
  | UnsupportedOperation (s : String)
deriving DecidableEq

/-- Outcome of Rust code that may return a value, return an error, or
panic (out-of-bounds slicing, `unwrap` on a failed parse). -/
inductive RResult (α : Type) where
  | ok (a : α)
  | error (e : Svg2PdcError)
  | panicked
deriving DecidableEq

/-! ### color.rs -/

/-- Source: `enum TruncateColor { Truncate, Keep }`. -/
inductive TruncateColor where
  | Truncate
  | Keep
deriving DecidableEq

/-- Source: `struct Color { r: u8, g: u8, b: u8, a: u8 }`. -/
structure Color where
  r : ℕ
  g : ℕ
  b : ℕ
  a : ℕ
deriving DecidableEq

/-- Rust `Color::default()` (derived `Default`): all channels zero. -/
def Color.default : Color := ⟨0, 0, 0, 0⟩

/-- Rust string slicing `s[i..j]`: panics (here: `none`) when the bounds
are out of range.  All strings handled in this development are ASCII, so
byte indices and character indices coincide. -/
def strSlice (s : List Char) (i j : ℕ) : Option (List Char) :=
  if i ≤ j ∧ j ≤ s.length then some ((s.drop i).take (j - i)) else none

/-- Value of one hexadecimal digit. -/
def hexDigit? (c : Char) : Option ℕ :=
  if '0' ≤ c ∧ c ≤ '9' then some (c.toNat - 48)
  else if 'a' ≤ c ∧ c ≤ 'f' then some (c.toNat - 87)
  else if 'A' ≤ c ∧ c ≤ 'F' then some (c.toNat - 55)
  else none

def hexFold : List Char → ℕ → Option ℕ
  | [], acc => some acc
  | c :: rest, acc =>
    match hexDigit? c with
    | some d => hexFold rest (acc * 16 + d)
    | none => none

/-- Model of `u8::from_str_radix(s, 16)`: an optional single leading plus
sign, then a nonempty run of hex digits; a minus sign, any non-digit, an
empty digit run, or a value above 255 is an error. -/
def from_str_radix_u8 (s : List Char) : Option ℕ :=
  let digits := match s with
    | '+' :: rest => rest
    | _ => s
  if digits.isEmpty then none
  else match hexFold digits 0 with
    | some v => if v ≤ 255 then some v else none
    | none => none

/-- Source: `Color::try_from_hex`.  Note the `?`-propagated errors and
that the slices `hex[0..2]`, `hex[2..4]`, `hex[4..6]` panic when the
trimmed string is shorter than the sliced range. -/
def Color.try_from_hex (s : String) : RResult Color :=
  let hex := s.data.dropWhile (· = '#')   -- trim_start_matches('#')
  match strSlice hex 0 2 with
  | none => .panicked
  | some s1 =>
    match from_str_radix_u8 s1 with
    | none => .error (.InvalidColor hex.asString)
    | some r =>
      match strSlice hex 2 4 with
      | none => .panicked
      | some s2 =>
        match from_str_radix_u8 s2 with
        | none => .error (.InvalidColor hex.asString)
        | some g =>
          match strSlice hex 4 6 with
          | none => .panicked
          | some s3 =>
            match from_str_radix_u8 s3 with
            | none => .error (.InvalidColor hex.asString)
            | some b =>
              let a :=
                if hex.length = 8 then
                  (((strSlice hex 6 8).bind from_str_radix_u8).getD 255)
                else 255
              .ok ⟨r, g, b, a⟩

/-- Source: `Color::with_opacity`. -/
def Color.with_opacity (c : Color) (opacity : ℕ) : Color :=
  ⟨c.r, c.g, c.b, opacity⟩

/-- Source: `struct PebbleColor(u8)`. -/
structure PebbleColor where
  val : ℕ
deriving DecidableEq

/-- Source: `PebbleColor::nothing()`. -/
def PebbleColor.nothing : PebbleColor := ⟨0⟩

/-- Source: `PebbleColor::from_color`, the packing
`(a << 6) | (r << 4) | (g << 2) | b` on u8 values; each shift wraps
modulo 256. -/
def PebbleColor.from_color (c : Color) : PebbleColor :=
  ⟨(c.a * 2 ^ 6) % 256 ||| (c.r * 2 ^ 4) % 256 ||| (c.g * 2 ^ 2) % 256 ||| c.b⟩

/-- Source: `PebbleColor::from_color_with_truncate`. -/
def PebbleColor.from_color_with_truncate (c : Color) : PebbleColor :=
  let a := (c.a / 85) * 85
  if a = 0 then ⟨0⟩
  else PebbleColor.from_color ⟨(c.r / 85) * 85, (c.g / 85) * 85, (c.b / 85) * 85, a⟩

/-- The per-channel expression of `PebbleColor::from_color_with_convert`:
`(((x as f32 + 42_f32) / 85_f32) * 85_f32) as u8`, with both f32
operations rounded exactly as f32 does. -/
def convert_channel (x : ℕ) : ℕ :=
  satU8 (f32round (f32round (((x : ℚ) + 42) / 85) * 85))

/-- Source: `PebbleColor::from_color_with_convert`. -/
def PebbleColor.from_color_with_convert (c : Color) : PebbleColor :=
  let a := convert_channel c.a
  if a = 0 then ⟨0⟩
  else PebbleColor.from_color
    ⟨convert_channel c.r, convert_channel c.g, convert_channel c.b, a⟩

/-- Source: `PebbleColor::get_a`: `(self.0 & 0b1100_0000) >> 6`. -/
def PebbleColor.get_a (c : PebbleColor) : ℕ := (c.val &&& 0b11000000) >>> 6

/-- Source: `PebbleColor::get_r`: `(self.0 & 0b0011_0000) >> 4`. -/
def PebbleColor.get_r (c : PebbleColor) : ℕ := (c.val &&& 0b00110000) >>> 4

/-- Source: `PebbleColor::get_g`: `(self.0 & 0b0000_1100) >> 2`. -/
def PebbleColor.get_g (c : PebbleColor) : ℕ := (c.val &&& 0b00001100) >>> 2

/-- Source: `PebbleColor::get_b`: `self.0 & 0b0000_0011`. -/
def PebbleColor.get_b (c : PebbleColor) : ℕ := c.val &&& 0b00000011

/-- Source: `PebbleColor::is_black`: `self.0 & 0b0011_1111 == 0`. -/
def PebbleColor.is_black (c : PebbleColor) : Bool := c.val &&& 0b00111111 == 0

/-- Source: `PebbleColor::inner`. -/
def PebbleColor.inner (c : PebbleColor) : ℕ := c.val

/-! ### point.rs — operations -/

/-- `impl Add for FPoint`: componentwise f32 addition. -/
def FPoint.add (p o : FPoint) : FPoint :=
  ⟨f32round (p.x + o.x), f32round (p.y + o.y)⟩

/-- `impl Mul<f32> for FPoint`: componentwise f32 multiplication. -/
def FPoint.mulF (p : FPoint) (o : ℚ) : FPoint :=
  ⟨f32round (p.x * o), f32round (p.y * o)⟩

/-- `impl Div<f32> for FPoint`: componentwise f32 division. -/
def FPoint.divF (p : FPoint) (o : ℚ) : FPoint :=
  ⟨f32round (p.x / o), f32round (p.y / o)⟩

/-- Source: `FPoint::round`, which adds `f32::EPSILON` before rounding
(a quirk carried over from the original python implementation). -/
def FPoint.round (p : FPoint) : FPoint :=
  ⟨(rustRound (f32round (p.x + EPS)) : ℚ),
    (rustRound (f32round (p.y + EPS)) : ℚ)⟩

/-- The snapping constant of `FPoint::find_nearest_valid`
(`match precision { Normal => 2.0, Precise => 8.0 }`). -/
def grid_constant : Precision → ℚ
  | .Normal => 2
  | .Precise => 8

/-- Source: `FPoint::find_nearest_valid`. -/
def FPoint.find_nearest_valid (p : FPoint) (precision : Precision) : FPoint :=
  ((p.mulF (grid_constant precision)).round).divF (grid_constant precision)

/-- Source: `struct PebblePoint { x: u16, y: u16 }`. -/
structure PebblePoint where
  x : ℕ
  y : ℕ
deriving DecidableEq

/-- The tail of `FPoint::pebble_coordinates`: translate by
`FPoint::new(-0.5, -0.5)`, round, and under Precise precision scale the
rounded point by 8. -/
def FPoint.translate_round (point : FPoint) (precision : Precision) : FPoint :=
  match precision with
  | .Normal => (point.add ⟨-(1/2), -(1/2)⟩).round
  | .Precise => ((point.add ⟨-(1/2), -(1/2)⟩).round).mulF 8

/-- Source: `FPoint::pebble_coordinates`.  The early `return Err` of the
`RequireExact` arm is modelled by the intermediate `Except` value. -/
def FPoint.pebble_coordinates (p : FPoint) (precision : Precision)
    (conversion : Conversion) : Except Svg2PdcError PebblePoint :=
  match (if p ≠ p.find_nearest_valid precision then
      match conversion with
      | .ConvertNoWarn => Except.ok (p.find_nearest_valid precision)
      | .ConvertWarn =>
        -- also emits a diagnostic line
        Except.ok (p.find_nearest_valid precision)
      | .RequireExact =>
        Except.error (Svg2PdcError.InvalidPoint p (p.find_nearest_valid precision))
    else Except.ok p) with
  | .error e => .error e
  | .ok point =>
    .ok ⟨satU16 (point.translate_round precision).x,
      satU16 (point.translate_round precision).y⟩

/-- `impl Add<FPoint> for PebblePoint` (u16 coordinates cast to f32,
then f32 addition). -/
def PebblePoint.addF (p : PebblePoint) (o : FPoint) : FPoint :=
  ⟨f32round ((p.x : ℚ) + o.x), f32round ((p.y : ℚ) + o.y)⟩

/-! ### image.rs

The byte sink (`W: Write`) is modelled as a list of bytes that writes
append to; serialization functions return the error (if any) together
with the final state of the sink. -/

/-- Source: `struct DrawOptions`. -/
structure DrawOptions where
  translate : FPoint
  stroke_width : ℕ
  stroke_color : ℕ
  fill_color : ℕ
  precision : Precision
  conversion : Conversion
deriving DecidableEq

/-- Source: `enum DrawCommand` (`open` is a Lean keyword, hence
`isOpen`). -/
inductive DrawCommand where
  | Path (points : List PebblePoint) (isOpen : Bool) (options : DrawOptions)
  | Circle (center : PebblePoint) (radius : ℕ) (options : DrawOptions)
deriving DecidableEq

/-- The `options` field common to both command variants. -/
def DrawCommand.options : DrawCommand → DrawOptions
  | .Path _ _ o => o
  | .Circle _ _ o => o

/-- `write_u16::<LittleEndian>`. -/
def u16le (n : ℕ) : List ℕ := [n % 256, n / 2 ^ 8 % 256]

/-- `write_u32::<LittleEndian>`. -/
def u32le (n : ℕ) : List ℕ :=
  [n % 256, n / 2 ^ 8 % 256, n / 2 ^ 16 % 256, n / 2 ^ 24 % 256]

/-- The point loop of the `Path` arm of `DrawCommand::serialize`: each
stored point is translated (f32 add) and re-quantized, and quantization
failure aborts with the bytes written so far. -/
def serialize_points (options : DrawOptions) :
    List PebblePoint → List ℕ → Option Svg2PdcError × List ℕ
  | [], buf => (none, buf)
  | p :: rest, buf =>
    match (p.addF options.translate).pebble_coordinates
        options.precision options.conversion with
    | .error e => (some e, buf)
    | .ok q => serialize_points options rest (buf ++ u16le q.x ++ u16le q.y)

/-- Source: `DrawCommand::serialize`. -/
def DrawCommand.serialize (cmd : DrawCommand) (buf : List ℕ) :
    Option Svg2PdcError × List ℕ :=
  match cmd with
  | .Path points isOpen options =>
    let ty : ℕ := match options.precision with
      | .Normal => 1    -- DRAW_COMMAND_TYPE_PATH
      | .Precise => 3   -- DRAW_COMMAND_TYPE_PRECISE_PATH
    let buf := buf ++ [ty, 0, options.stroke_color, options.stroke_width,
      options.fill_color, if isOpen then 1 else 0, 0] ++
      u16le (points.length % 2 ^ 16)
    serialize_points options points buf
  | .Circle center radius options =>
    -- the center is translated and re-quantized before any byte is written
    match (center.addF options.translate).pebble_coordinates
        options.precision options.conversion with
    | .error e => (some e, buf)
    | .ok c =>
      (none, buf ++ [2, 0, options.stroke_color, options.stroke_width,
        options.fill_color] ++ u16le radius ++ u16le c.x ++ u16le c.y)

/-- Source: `struct PebbleImage`. -/
structure PebbleImage where
  size : PebblePoint
  commands : List DrawCommand
deriving DecidableEq

/-- Source: `PebbleImage::serialize_header` (version byte 1, reserved
byte 0, then the size as two little-endian u16; writing into a `Vec`
cannot fail). -/
def PebbleImage.serialize_header (img : PebbleImage) (buf : List ℕ) : List ℕ :=
  buf ++ [1, 0] ++ u16le img.size.x ++ u16le img.size.y

/-- The command loop of `PebbleImage::serialize`, aborting on the first
command that fails. -/
def serialize_commands :
    List DrawCommand → List ℕ → Option Svg2PdcError × List ℕ
  | [], buf => (none, buf)
  | c :: rest, buf =>
    match c.serialize buf with
    | (some e, buf2) => (some e, buf2)
    | (none, buf2) => serialize_commands rest buf2

/-- Source: `PebbleImage::serialize`.  The whole payload is assembled in
an internal buffer (`BufWriter::new(Vec::new())`); the magic, the payload
length and the payload reach the caller-provided sink only after every
command serialized successfully. -/
def PebbleImage.serialize (img : PebbleImage) (sink : List ℕ) :
    Option Svg2PdcError × List ℕ :=
  -- the internal buffer receives the header, the command count, then the
  -- commands; the ? on a failing command returns before any sink write
  match serialize_commands img.commands
      (img.serialize_header [] ++ u16le (img.commands.length % 2 ^ 16)) with
  | (some e, _) => (some e, sink)
  | (none, buf) =>
    -- writer.write("PDCI"), then u32(buf.len()), then the buffer
    (none, sink ++ [80, 68, 67, 73] ++ u32le (buf.length % 2 ^ 32) ++ buf)

/-! ### Helper lemmas for concrete evaluation of the f32 operations -/

theorem f32round_nat (n : ℕ) (h : n < 2 ^ 24) : f32round ((n : ℚ)) = n := by
  simpa using f32round_repr n 0 h

theorem f32round_div2 (n : ℕ) (h : n < 2 ^ 24) :
    f32round ((n : ℚ) / 2) = (n : ℚ) / 2 := by
  have := f32round_repr n (-1) h
  have h2 : ((2 : ℚ)) ^ ((-1 : ℤ)) = 1 / 2 := by norm_num
  rw [h2] at this
  calc f32round ((n : ℚ) / 2) = f32round ((n : ℚ) * (1 / 2)) := by ring_nf
    _ = (n : ℚ) * (1 / 2) := this
    _ = (n : ℚ) / 2 := by ring

theorem f32round_div4 (n : ℕ) (h : n < 2 ^ 24) :
    f32round ((n : ℚ) / 4) = (n : ℚ) / 4 := by
  have := f32round_repr n (-2) h
  have h2 : ((2 : ℚ)) ^ ((-2 : ℤ)) = 1 / 4 := by norm_num
  rw [h2] at this
  calc f32round ((n : ℚ) / 4) = f32round ((n : ℚ) * (1 / 4)) := by ring_nf
    _ = (n : ℚ) * (1 / 4) := this
    _ = (n : ℚ) / 4 := by ring

theorem f32round_div8 (n : ℕ) (h : n < 2 ^ 24) :
    f32round ((n : ℚ) / 8) = (n : ℚ) / 8 := by
  have := f32round_repr n (-3) h
  have h2 : ((2 : ℚ)) ^ ((-3 : ℤ)) = 1 / 8 := by norm_num
  rw [h2] at this
  calc f32round ((n : ℚ) / 8) = f32round ((n : ℚ) * (1 / 8)) := by ring_nf
    _ = (n : ℚ) * (1 / 8) := this
    _ = (n : ℚ) / 8 := by ring

theorem f32round_nat_add_eps (n : ℕ) (h2 : 2 ≤ n) (h : n < 2 ^ 21) :
    f32round ((n : ℚ) + EPS) = n := by
  have heq : ((8 * n : ℕ) : ℚ) / 8 = (n : ℚ) := by push_cast; ring
  have := f32round_grid_add_eps (8 * n) (by omega) (by omega)
  rw [heq] at this
  exact this

theorem f32round_half_add_eps (n : ℕ) (h4 : 4 ≤ n) (h : n < 2 ^ 22) :
    f32round ((n : ℚ) / 2 + EPS) = (n : ℚ) / 2 := by
  have heq : ((4 * n : ℕ) : ℚ) / 8 = (n : ℚ) / 2 := by push_cast; ring
  have := f32round_grid_add_eps (4 * n) (by omega) (by omega)
  rw [heq] at this
  exact this

theorem rustRound_natCast (n : ℕ) : rustRound ((n : ℚ)) = n := by
  unfold rustRound
  rw [if_neg (not_lt.mpr (by positivity))]
  have hfl : ⌊(n : ℚ) + 1/2⌋ = (n : ℤ) := by
    rw [Int.floor_eq_iff]
    exact ⟨by push_cast; linarith, by push_cast; linarith⟩
  rw [hfl]

theorem rustRound_nat_sub_half (n : ℕ) (h : 1 ≤ n) :
    rustRound ((n : ℚ) - 1/2) = n := by
  unfold rustRound
  have h1 : (1 : ℚ) ≤ (n : ℚ) := by exact_mod_cast h
  rw [if_neg (by push_neg; linarith)]
  rw [show ((n : ℚ) - 1/2 + 1/2) = (n : ℚ) by ring]
  exact_mod_cast Int.floor_natCast n

theorem rustRound_half_add_eps_int (n : ℕ) :
    rustRound ((n : ℚ) + EPS) = n := by
  unfold rustRound
  have heps : (0 : ℚ) < EPS := by norm_num [EPS]
  have heps2 : EPS < 1/2 := by norm_num [EPS]
  rw [if_neg (not_lt.mpr (by positivity))]
  have hfl : ⌊(n : ℚ) + EPS + 1/2⌋ = ((n : ℕ) : ℤ) := by
    rw [Int.floor_eq_iff]
    exact ⟨by push_cast; linarith, by push_cast; linarith⟩
  rw [hfl]

theorem satU16_natCast (n : ℕ) (h : n ≤ 65535) : satU16 ((n : ℚ)) = n := by
  unfold satU16
  rw [show ⌊(n : ℚ)⌋ = (n : ℤ) from Int.floor_natCast n]
  simp
  omega

theorem satU8_natCast (n : ℕ) (h : n ≤ 255) : satU8 ((n : ℚ)) = n := by
  unfold satU8
  rw [show ⌊(n : ℚ)⌋ = (n : ℤ) from Int.floor_natCast n]
  simp
  omega

/-- `f32round` leaves `f32::EPSILON` itself unchanged. -/
theorem f32round_eps : f32round EPS = EPS := by
  have h := f32round_repr 1 (-23) (by norm_num)
  rw [show ((1 : ℕ) : ℚ) * 2 ^ ((-23 : ℤ)) = EPS by rw [EPS]; push_cast; ring] at h
  exact h

/-- `1 + EPS` is exactly representable. -/
theorem f32round_one_add_eps : f32round (1 + EPS) = 1 + EPS := by
  have h := f32round_repr (2 ^ 23 + 1) (-23) (by norm_num)
  rw [show (((2 ^ 23 + 1 : ℕ)) : ℚ) * 2 ^ ((-23 : ℤ)) = 1 + EPS by
    rw [EPS]; push_cast; ring] at h
  exact h

/-- Rounding an integer grid point after the epsilon bias recovers the
integer: the composition `rustRound ∘ f32round (. + EPS)` is the
identity on natural inputs in range. -/
theorem round_step_nat (m : ℕ) (h : m < 2 ^ 21) :
    rustRound (f32round ((m : ℚ) + EPS)) = m := by
  match m, h with
  | 0, _ =>
    rw [show ((0 : ℕ) : ℚ) + EPS = EPS by norm_num, f32round_eps]
    unfold rustRound
    rw [if_neg (not_lt.mpr (by norm_num [EPS]))]
    have hfl : ⌊EPS + 1/2⌋ = (0 : ℤ) := by
      rw [Int.floor_eq_iff]
      constructor
      · norm_num [EPS]
      · norm_num [EPS]
    rw [hfl]
    norm_num
  | 1, _ =>
    rw [show ((1 : ℕ) : ℚ) + EPS = 1 + EPS by norm_num, f32round_one_add_eps]
    have h1 := rustRound_half_add_eps_int 1
    rw [show ((1 : ℕ) : ℚ) + EPS = 1 + EPS by norm_num] at h1
    rw [h1]
  | (k + 2), h =>
    rw [f32round_nat_add_eps (k + 2) (by omega) h,
      rustRound_natCast]

/-- One coordinate of `find_nearest_valid` on a grid point: multiply by
the snapping constant, epsilon-bias and round, divide back — the value
is unchanged. -/
theorem snap_component (v : ℚ) (m : ℕ) (c : ℚ) (hc : c = 2 ∨ c = 8)
    (hv : v * c = (m : ℚ)) (hm : m < 2 ^ 21) :
    f32round (((rustRound (f32round (f32round (v * c) + EPS)) : ℤ) : ℚ) / c) = v := by
  rw [hv, f32round_nat m (by omega), round_step_nat m hm]
  have hc0 : c ≠ 0 := by rcases hc with h | h <;> rw [h] <;> norm_num
  have hvm : v = (m : ℚ) / c := by
    field_simp
    linarith [hv]
  rcases hc with h | h
  · rw [h]
    rw [show (((m : ℕ) : ℤ) : ℚ) = ((m : ℕ) : ℚ) by push_cast; ring]
    rw [f32round_div2 m (by omega)]
    rw [hvm, h]
  · rw [h]
    rw [show (((m : ℕ) : ℤ) : ℚ) = ((m : ℕ) : ℚ) by push_cast; ring]
    rw [f32round_div8 m (by omega)]
    rw [hvm, h]

/-- `find_nearest_valid` is the identity on points of the snapping grid. -/
theorem find_nearest_valid_on_grid (x y : ℚ) (mx my : ℕ) (prec : Precision)
    (hx : x * grid_constant prec = (mx : ℚ))
    (hy : y * grid_constant prec = (my : ℚ))
    (hmx : mx < 2 ^ 21) (hmy : my < 2 ^ 21) :
    FPoint.find_nearest_valid ⟨x, y⟩ prec = ⟨x, y⟩ := by
  have hc : grid_constant prec = 2 ∨ grid_constant prec = 8 := by
    cases prec
    · left; rfl
    · right; rfl
  unfold FPoint.find_nearest_valid FPoint.mulF FPoint.round FPoint.divF
  simp only [FPoint.mk.injEq]
  exact ⟨snap_component x mx _ hc hx hmx, snap_component y my _ hc hy hmy⟩

/-- Translating an integer coordinate by -0.5, epsilon-biasing and
rounding half away from zero lands back on the integer. -/
theorem half_int_round_up (m : ℕ) (h1 : 1 ≤ m) (hu : m < 2 ^ 21) :
    rustRound (f32round (f32round ((m : ℚ) + -(1/2)) + EPS)) = m := by
  have hcast : ((2 * m - 1 : ℕ) : ℚ) = 2 * (m : ℚ) - 1 := by
    have h2 : (1 : ℕ) ≤ 2 * m := by omega
    push_cast [Nat.cast_sub h2]
    ring
  have harg : (m : ℚ) + -(1/2) = ((2 * m - 1 : ℕ) : ℚ) / 2 := by
    rw [hcast]
    ring
  rw [harg, f32round_div2 (2 * m - 1) (by omega)]
  match m, h1, hu with
  | 1, _, _ =>
    have hv : ((2 * 1 - 1 : ℕ) : ℚ) / 2 + EPS = ((2 ^ 22 + 1 : ℕ) : ℚ) * 2 ^ ((-23 : ℤ)) := by
      rw [EPS]
      push_cast
      norm_num
    rw [hv, f32round_repr (2 ^ 22 + 1) (-23) (by norm_num)]
    unfold rustRound
    rw [if_neg (not_lt.mpr (by positivity))]
    have hfl : ⌊((2 ^ 22 + 1 : ℕ) : ℚ) * 2 ^ ((-23 : ℤ)) + 1/2⌋ = (1 : ℤ) := by
      rw [Int.floor_eq_iff]
      constructor
      · push_cast; norm_num
      · push_cast; norm_num
    rw [hfl]
    norm_num
  | 2, _, _ =>
    have hv : ((2 * 2 - 1 : ℕ) : ℚ) / 2 + EPS = ((3 * 2 ^ 22 + 1 : ℕ) : ℚ) * 2 ^ ((-23 : ℤ)) := by
      rw [EPS]
      push_cast
      norm_num
    rw [hv, f32round_repr (3 * 2 ^ 22 + 1) (-23) (by norm_num)]
    unfold rustRound
    rw [if_neg (not_lt.mpr (by positivity))]
    have hfl : ⌊((3 * 2 ^ 22 + 1 : ℕ) : ℚ) * 2 ^ ((-23 : ℤ)) + 1/2⌋ = (2 : ℤ) := by
      rw [Int.floor_eq_iff]
      constructor
      · push_cast; norm_num
      · push_cast; norm_num
    rw [hfl]
    norm_num
  | (k + 3), _, hu =>
    rw [f32round_half_add_eps (2 * (k + 3) - 1) (by omega) (by omega)]
    unfold rustRound
    rw [if_neg (not_lt.mpr (by positivity))]
    have hfl : ⌊((2 * (k + 3) - 1 : ℕ) : ℚ) / 2 + 1/2⌋ = ((k + 3 : ℕ) : ℤ) := by
      have hc2 : ((2 * (k + 3) - 1 : ℕ) : ℚ) = 2 * ((k + 3 : ℕ) : ℚ) - 1 := by
        push_cast [Nat.cast_sub (by omega : (1 : ℕ) ≤ 2 * (k + 3))]
        ring
      rw [show ((2 * (k + 3) - 1 : ℕ) : ℚ) / 2 + 1/2 = ((k + 3 : ℕ) : ℚ) by
        rw [hc2]; ring]
      exact Int.floor_natCast _
    rw [hfl]

/-- On a point whose nearest grid point is itself, `pebble_coordinates`
skips the policy and returns the translated, rounded point. -/
theorem pebble_coordinates_ok_of_fnv (p : FPoint) (prec : Precision)
    (conv : Conversion) (h : p.find_nearest_valid prec = p) :
    p.pebble_coordinates prec conv =
      .ok ⟨satU16 (p.translate_round prec).x, satU16 (p.translate_round prec).y⟩ := by
  unfold FPoint.pebble_coordinates
  rw [h, if_neg (by simp)]

theorem translate_round_nat_normal (m k : ℕ)
    (hm : 1 ≤ m) (hmu : m < 2 ^ 21) (hk : 1 ≤ k) (hku : k < 2 ^ 21) :
    (FPoint.mk (m : ℚ) (k : ℚ)).translate_round .Normal = ⟨(m : ℚ), (k : ℚ)⟩ := by
  unfold FPoint.translate_round FPoint.add FPoint.round
  rw [FPoint.mk.injEq]
  constructor
  · rw [half_int_round_up m hm hmu]
    push_cast
    ring
  · rw [half_int_round_up k hk hku]
    push_cast
    ring

theorem translate_round_nat_precise (m k : ℕ)
    (hm : 1 ≤ m) (hmu : m < 2 ^ 21) (hk : 1 ≤ k) (hku : k < 2 ^ 21) :
    (FPoint.mk (m : ℚ) (k : ℚ)).translate_round .Precise =
      ⟨((8 * m : ℕ) : ℚ), ((8 * k : ℕ) : ℚ)⟩ := by
  unfold FPoint.translate_round FPoint.add FPoint.round FPoint.mulF
  rw [FPoint.mk.injEq]
  constructor
  · show f32round (((rustRound (f32round (f32round ((m : ℚ) + -(1/2)) + EPS)) : ℤ) : ℚ) * 8) = _
    rw [half_int_round_up m hm hmu,
      show (((m : ℕ) : ℤ) : ℚ) * 8 = ((8 * m : ℕ) : ℚ) by push_cast; ring,
      f32round_nat (8 * m) (by omega)]
  · show f32round (((rustRound (f32round (f32round ((k : ℚ) + -(1/2)) + EPS)) : ℤ) : ℚ) * 8) = _
    rw [half_int_round_up k hk hku,
      show (((k : ℕ) : ℤ) : ℚ) * 8 = ((8 * k : ℕ) : ℚ) by push_cast; ring,
      f32round_nat (8 * k) (by omega)]

/-- `pebble_coordinates` on an exact integer point under Normal
precision: the point survives unchanged. -/
theorem pebble_coordinates_nat_normal (m k : ℕ) (conv : Conversion)
    (hm : 1 ≤ m) (hmu : m < 2 ^ 16) (hk : 1 ≤ k) (hku : k < 2 ^ 16) :
    FPoint.pebble_coordinates ⟨(m : ℚ), (k : ℚ)⟩ .Normal conv = .ok ⟨m, k⟩ := by
  have hfnv := find_nearest_valid_on_grid (m : ℚ) (k : ℚ) (2 * m) (2 * k) .Normal
    (by unfold grid_constant; push_cast; ring)
    (by unfold grid_constant; push_cast; ring)
    (by omega) (by omega)
  rw [pebble_coordinates_ok_of_fnv _ _ conv hfnv,
    translate_round_nat_normal m k hm (by omega) hk (by omega)]
  show Except.ok (PebblePoint.mk (satU16 ((m : ℚ))) (satU16 ((k : ℚ)))) =
    Except.ok (PebblePoint.mk m k)
  rw [satU16_natCast m (by omega), satU16_natCast k (by omega)]

/-- `pebble_coordinates` on an exact integer point under Precise
precision: the rounded value is scaled by 8 before the u16 cast. -/
theorem pebble_coordinates_nat_precise (m k : ℕ) (conv : Conversion)
    (hm : 1 ≤ m) (hmu : m < 2 ^ 12) (hk : 1 ≤ k) (hku : k < 2 ^ 12) :
    FPoint.pebble_coordinates ⟨(m : ℚ), (k : ℚ)⟩ .Precise conv = .ok ⟨8 * m, 8 * k⟩ := by
  have hfnv := find_nearest_valid_on_grid (m : ℚ) (k : ℚ) (8 * m) (8 * k) .Precise
    (by unfold grid_constant; push_cast; ring)
    (by unfold grid_constant; push_cast; ring)
    (by omega) (by omega)
  rw [pebble_coordinates_ok_of_fnv _ _ conv hfnv,
    translate_round_nat_precise m k hm (by omega) hk (by omega)]
  show Except.ok (PebblePoint.mk (satU16 (((8 * m : ℕ) : ℚ))) (satU16 (((8 * k : ℕ) : ℚ)))) =
    Except.ok (PebblePoint.mk (8 * m) (8 * k))
  rw [satU16_natCast (8 * m) (by omega), satU16_natCast (8 * k) (by omega)]

/-- `pebble_coordinates` under the strict policy fails as soon as the
point is not its own nearest grid point. -/
theorem pebble_coordinates_fail (p : FPoint) (prec : Precision)
    (h : p.find_nearest_valid prec ≠ p) :
    p.pebble_coordinates prec .RequireExact =
      .error (.InvalidPoint p (p.find_nearest_valid prec)) := by
  unfold FPoint.pebble_coordinates
  rw [if_pos (Ne.symm h)]

/-- The off-grid x coordinate 10.25 snaps to 10.5 under Normal
precision. -/
theorem fnv_offgrid_eval :
    FPoint.find_nearest_valid ⟨41/4, 20⟩ .Normal = ⟨21/2, 20⟩ := by
  unfold FPoint.find_nearest_valid FPoint.mulF FPoint.round FPoint.divF grid_constant
  have e1 : f32round ((41 : ℚ)/4 * 2) = ((41 : ℕ) : ℚ) / 2 := by
    rw [show ((41 : ℚ)/4 * 2) = ((41 : ℕ) : ℚ) / 2 by push_cast; ring]
    exact f32round_div2 41 (by norm_num)
  have e2 : rustRound (((41 : ℕ) : ℚ) / 2) = 21 := by
    unfold rustRound
    rw [if_neg (not_lt.mpr (by positivity))]
    have hfl : ⌊((41 : ℕ) : ℚ)/2 + 1/2⌋ = (21 : ℤ) := by
      rw [show ((41 : ℕ) : ℚ)/2 + 1/2 = ((21 : ℕ) : ℚ) by push_cast; ring]
      exact Int.floor_natCast _
    rw [hfl]
  have e3 : f32round ((20 : ℚ) * 2) = ((40 : ℕ) : ℚ) := by
    rw [show ((20 : ℚ) * 2) = ((40 : ℕ) : ℚ) by push_cast; ring]
    exact f32round_nat 40 (by norm_num)
  rw [e1, f32round_half_add_eps 41 (by norm_num) (by norm_num), e2]
  rw [e3, f32round_nat_add_eps 40 (by norm_num) (by norm_num), rustRound_natCast]
  rw [show (((21 : ℤ)) : ℚ) = ((21 : ℕ) : ℚ) by push_cast; ring,
    show ((((40 : ℕ) : ℤ)) : ℚ) = ((40 : ℕ) : ℚ) by push_cast; ring]
  rw [f32round_div2 21 (by norm_num), f32round_div2 40 (by norm_num)]
  rw [FPoint.mk.injEq]
  constructor
  · push_cast; ring
  · push_cast; ring

/-- `convert_channel 0` evaluates to 42 (and not to a palette level):
f32 division has no integer truncation, so `((0 + 42) / 85) * 85`
comes back as 42 up to a sub-ulp error that the final rounding removes. -/
theorem convert_channel_zero : convert_channel 0 = 42 := by
  have h1 : f32round ((((0 : ℕ) : ℚ) + 42) / 85) = 16579837 * 2 ^ ((-25 : ℤ)) := by
    have harg : (((0 : ℕ) : ℚ) + 42) / 85 = 42 / 85 := by norm_num
    rw [harg]
    have hr : roundHalfEven ((42 : ℚ) / 85 * 2 ^ ((23 : ℤ) - (-2))) = 16579837 := by
      have hsplit : (42 : ℚ) / 85 * 2 ^ ((23 : ℤ) - (-2)) =
          ((16579836 : ℤ) : ℚ) + 84 / 85 := by norm_num
      rw [hsplit]
      simpa using roundHalfEven_add_gt 16579836 (84 / 85) (by norm_num) (by norm_num)
    simpa using f32round_eval (42 / 85) (-2) 16579837
      (by norm_num) (by norm_num) (by norm_num) hr
  have h2 : f32round ((16579837 : ℚ) * 2 ^ ((-25 : ℤ)) * 85) = 42 := by
    have hr : roundHalfEven ((16579837 : ℚ) * 2 ^ ((-25 : ℤ)) * 85 *
        2 ^ ((23 : ℤ) - 5)) = 11010048 := by
      have hsplit : (16579837 : ℚ) * 2 ^ ((-25 : ℤ)) * 85 * 2 ^ ((23 : ℤ) - 5) =
          ((11010048 : ℤ) : ℚ) + 1 / 128 := by norm_num
      rw [hsplit]
      exact roundHalfEven_add_lt 11010048 (1 / 128) (by norm_num) (by norm_num)
    have := f32round_eval ((16579837 : ℚ) * 2 ^ ((-25 : ℤ)) * 85) 5 11010048
      (by norm_num) (by norm_num) (by norm_num) hr
    rw [this]
    norm_num
  unfold convert_channel
  rw [h1, h2]
  simpa using satU8_natCast 42 (by norm_num)

/-- C1.  The claim asserts that the quantized channels are divided by 85
and the resulting 0..3 indices are packed into disjoint two-bit fields,
so that each getter recovers its index.  The code packs the quantized
channel VALUES (0, 85, 170, 255) instead: lower channels bleed into the
higher bit fields.  At `Color { r: 0, g: 0, b: 255, a: 85 }` under
Truncate the quantized alpha is 85, whose palette index is 1, yet
`get_a` of the packed byte returns 3 (the blue value 255 sets every
bit of the byte). -/
theorem c1_packed_fields_not_indices :
    PebbleColor.get_a (PebbleColor.from_color_with_truncate ⟨0, 0, 255, 85⟩) = 3 ∧
    ((85 : ℕ) / 85) * 85 / 85 = 1 := by
  decide

/-- C2.  The claim asserts that the ConvertNearest policy maps each
channel to `round((channel + 42) / 85) * 85`, one of the palette levels
0, 85, 170, 255.  The code computes `((channel + 42.0) / 85.0) * 85.0`
in f32 with no integer truncation, then casts to u8: channel 0 becomes
42, while the claimed formula yields 0. -/
theorem c2_convert_channel_not_nearest_level :
    convert_channel 0 = 42 ∧
    rustRound (((0 : ℚ) + 42) / 85) * 85 = 0 ∧
    (42 : ℕ) ∉ [0, 85, 170, 255] := by
  refine ⟨convert_channel_zero, ?_, by decide⟩
  have : rustRound (((0 : ℚ) + 42) / 85) = 0 := by
    unfold rustRound
    rw [if_neg (by norm_num)]
    norm_num
  rw [this]
  ring

/-- C6.  The claim asserts that a color whose alpha quantizes to level
zero — in particular the fully transparent color — maps to the all-zero
byte under both policies.  Truncate does short-circuit to 0, but under
ConvertNearest the quantized alpha of 0 is 42 (see C2), never 0, so the
zero-alpha short-circuit is dead and the fully transparent black maps to
the byte 170 instead of 0. -/
theorem c6_transparent_not_nothing_under_convert :
    PebbleColor.from_color_with_convert ⟨0, 0, 0, 0⟩ = ⟨170⟩ ∧
    PebbleColor.from_color_with_truncate ⟨0, 0, 0, 0⟩ = ⟨0⟩ := by
  constructor
  · unfold PebbleColor.from_color_with_convert
    simp only [convert_channel_zero]
    decide
  · decide

/-- C9.  Serializing an empty image of device size (100, 200) writes
exactly the ASCII magic "PDCI", the little-endian u32 payload length 8,
and the payload bytes 01 00 64 00 C8 00 00 00. -/
theorem c9_empty_image_serialization :
    PebbleImage.serialize ⟨⟨100, 200⟩, []⟩ [] =
      (none, [80, 68, 67, 73, 8, 0, 0, 0, 1, 0, 100, 0, 200, 0, 0, 0]) := by
  decide

/-- C8.  For points already exactly on the snapping grid (multiples of
0.5 under Normal, 0.125 under Precise, in the device range),
`pebble_coordinates` never invokes the out-of-grid policy: the nearest
valid point is the point itself, and the conversion succeeds for every
policy, in particular for `RequireExact`. -/
theorem c8_grid_points_never_rejected (x y : ℚ) (mx my : ℕ)
    (prec : Precision) (conv : Conversion)
    (hx : x * grid_constant prec = (mx : ℚ))
    (hy : y * grid_constant prec = (my : ℚ))
    (hmx : mx < 2 ^ 21) (hmy : my < 2 ^ 21) :
    FPoint.find_nearest_valid ⟨x, y⟩ prec = ⟨x, y⟩ ∧
    ∃ q, FPoint.pebble_coordinates ⟨x, y⟩ prec conv = .ok q := by
  have hfnv := find_nearest_valid_on_grid x y mx my prec hx hy hmx hmy
  exact ⟨hfnv, ⟨_, pebble_coordinates_ok_of_fnv _ _ conv hfnv⟩⟩

/-- Witness for C8 at the grid point (3.5, 2) under Normal precision and
the strict policy. -/
theorem c8_grid_points_never_rejected_witness :
    ((7 : ℚ)/2 * grid_constant .Normal = ((7 : ℕ) : ℚ) ∧
      (2 : ℚ) * grid_constant .Normal = ((4 : ℕ) : ℚ) ∧
      (7 : ℕ) < 2 ^ 21 ∧ (4 : ℕ) < 2 ^ 21) ∧
    (FPoint.find_nearest_valid ⟨7/2, 2⟩ .Normal = ⟨7/2, 2⟩ ∧
      ∃ q, FPoint.pebble_coordinates ⟨7/2, 2⟩ .Normal .RequireExact = .ok q) := by
  refine ⟨⟨by norm_num [grid_constant], by norm_num [grid_constant],
    by norm_num, by norm_num⟩, ?_⟩
  exact c8_grid_points_never_rejected (7/2) 2 7 4 .Normal .RequireExact
    (by norm_num [grid_constant]) (by norm_num [grid_constant])
    (by norm_num) (by norm_num)

/-- C10.  `PebbleImage::serialize` assembles the whole payload in an
internal buffer and only then writes magic, length and payload to the
caller sink, so a failing command serialization leaves the sink with
exactly the bytes it already had. -/
theorem c10_serialize_atomic (img : PebbleImage) (sink : List ℕ)
    (e : Svg2PdcError) (out : List ℕ)
    (h : PebbleImage.serialize img sink = (some e, out)) :
    out = sink := by
  unfold PebbleImage.serialize at h
  split at h
  · injection h with h1 h2
    exact h2.symm
  · exact absurd (congrArg Prod.fst h) (by simp)

theorem serialize_points_fail_single (options : DrawOptions) (p : PebblePoint)
    (buf : List ℕ) (e : Svg2PdcError)
    (h : (p.addF options.translate).pebble_coordinates
      options.precision options.conversion = .error e) :
    serialize_points options [p] buf = (some e, buf) := by
  unfold serialize_points
  rw [h]

theorem serialize_commands_single (c : DrawCommand) (buf buf2 : List ℕ)
    (e : Svg2PdcError) (h : c.serialize buf = (some e, buf2)) :
    serialize_commands [c] buf = (some e, buf2) := by
  unfold serialize_commands
  rw [h]

theorem image_serialize_fail (img : PebbleImage) (sink : List ℕ)
    (e : Svg2PdcError) (b : List ℕ)
    (h : serialize_commands img.commands
      (img.serialize_header [] ++ u16le (img.commands.length % 2 ^ 16)) = (some e, b)) :
    PebbleImage.serialize img sink = (some e, sink) := by
  unfold PebbleImage.serialize
  rw [h]

/-- Serializing an image whose only path holds the point (10, 20) with
translate (0.25, 0) under the strict policy fails (10.25 is off-grid)
and leaves the sink bytes untouched. -/
theorem serialize_offgrid_eval (sink : List ℕ) :
    PebbleImage.serialize
      ⟨⟨10, 10⟩, [DrawCommand.Path [⟨10, 20⟩] true
        ⟨⟨1/4, 0⟩, 1, 3, 4, .Normal, .RequireExact⟩]⟩ sink =
      (some (.InvalidPoint ⟨41/4, 20⟩ ⟨21/2, 20⟩), sink) := by
  have haddx : f32round (((10 : ℕ) : ℚ) + 1/4) = 41/4 := by
    rw [show ((10 : ℕ) : ℚ) + 1/4 = ((41 : ℕ) : ℚ)/4 by push_cast; ring,
      f32round_div4 41 (by norm_num)]
    push_cast
    ring
  have haddy : f32round (((20 : ℕ) : ℚ) + 0) = 20 := by
    rw [show ((20 : ℕ) : ℚ) + 0 = ((20 : ℕ) : ℚ) by push_cast; ring,
      f32round_nat 20 (by norm_num)]
    push_cast
    ring
  have haddpt : PebblePoint.addF ⟨10, 20⟩ ⟨1/4, 0⟩ = ⟨41/4, 20⟩ := by
    unfold PebblePoint.addF
    rw [FPoint.mk.injEq]
    exact ⟨haddx, haddy⟩
  have hne : FPoint.find_nearest_valid ⟨41/4, 20⟩ .Normal ≠ ⟨41/4, 20⟩ := by
    rw [fnv_offgrid_eval]
    intro hc
    rw [FPoint.mk.injEq] at hc
    norm_num at hc
  have hpc : FPoint.pebble_coordinates ⟨41/4, 20⟩ .Normal .RequireExact =
      .error (.InvalidPoint ⟨41/4, 20⟩ ⟨21/2, 20⟩) := by
    rw [pebble_coordinates_fail ⟨41/4, 20⟩ .Normal hne, fnv_offgrid_eval]
  apply image_serialize_fail
  apply serialize_commands_single
  apply serialize_points_fail_single
  show (PebblePoint.addF ⟨10, 20⟩ ⟨1/4, 0⟩).pebble_coordinates
    .Normal .RequireExact = _
  rw [haddpt, hpc]

/-- Witness for C10: the failing image above, written to a sink that
already held one byte, reports the error and leaves the sink unchanged. -/
theorem c10_serialize_atomic_witness :
    PebbleImage.serialize
      ⟨⟨10, 10⟩, [DrawCommand.Path [⟨10, 20⟩] true
        ⟨⟨1/4, 0⟩, 1, 3, 4, .Normal, .RequireExact⟩]⟩ [7] =
      (some (.InvalidPoint ⟨41/4, 20⟩ ⟨21/2, 20⟩), [7]) ∧
    ([7] : List ℕ) = [7] :=
  ⟨serialize_offgrid_eval [7],
    c10_serialize_atomic _ [7] (.InvalidPoint ⟨41/4, 20⟩ ⟨21/2, 20⟩) [7]
      (serialize_offgrid_eval [7])⟩

/-! ### svg_converter.rs

The external crates are abstracted as oracles: `parse_xml` stands for
`roxmltree::Document::parse` plus `root_element()`, the others for the
svgtypes parsers and the std float/integer parsers.  Every function of
this repository is embedded on top of these oracles. -/

/-- The already-parsed form of an XML element (roxmltree output):
tag name, attributes in document order, children in document order.
Text and comment children appear as nodes with an empty tag name. -/
inductive Node where
  | mk (tag : String) (attrs : List (String × String)) (children : List Node)

def Node.tag : Node → String
  | .mk t _ _ => t

def Node.attrs : Node → List (String × String)
  | .mk _ a _ => a

def Node.children : Node → List Node
  | .mk _ _ c => c

/-- `roxmltree::Node::attribute`: the value of the first attribute with
the given name. -/
def Node.attribute (n : Node) (k : String) : Option String :=
  (n.attrs.find? (fun kv => kv.1 == k)).map (fun kv => kv.2)

/-- `svgtypes::ViewBox` (f64 fields as exact rationals). -/
structure ViewBox where
  x : ℚ
  y : ℚ
  w : ℚ
  h : ℚ
deriving DecidableEq

/-- `svgtypes::PathSegment`, keeping only the fields the converter
reads (the control points of curve segments are discarded by the
source, so they are not modelled). -/
inductive PathSegment where
  | MoveTo (abs : Bool) (x y : ℚ)
  | LineTo (abs : Bool) (x y : ℚ)
  | HorizontalLineTo (abs : Bool) (x : ℚ)
  | VerticalLineTo (abs : Bool) (y : ℚ)
  | CurveTo (abs : Bool) (x y : ℚ)
  | SmoothCurveTo (abs : Bool) (x y : ℚ)
  | Quadratic (abs : Bool) (x y : ℚ)
  | SmoothQuadratic (abs : Bool) (x y : ℚ)
  | EllipticalArc (abs : Bool) (x y : ℚ)
  | ClosePath
deriving DecidableEq

/-- `svgtypes::TransformListToken`: the converter only distinguishes
the translate component; every other token is `Other`. -/
inductive TransformToken where
  | Translate (tx ty : ℚ)
  | Other
deriving DecidableEq

/-- Oracles for the external crates: the std f32/f64 parsers (values as
exact rationals), the svgtypes viewbox, path and transform parsers, and
the roxmltree document parse (returning the root element). `none`
models a parse failure. -/
structure Externals where
  parse_f32 : String → Option ℚ
  parse_f64 : String → Option ℚ
  parse_viewbox : String → Option ViewBox
  parse_path_segments : String → Option (List PathSegment)
  parse_transform : String → Option (List TransformToken)
  parse_xml : String → Option Node

/-- Source: `struct GroupOptions` (f64 opacities as rationals). -/
structure GroupOptions where
  opacity : Option ℚ
  fill_color : Option String
  fill_opacity : Option ℚ
  stroke_color : Option String
  stroke_opacity : Option ℚ
  stroke_width : Option ℕ

/-- `GroupOptions::default()`. -/
def GroupOptions.default : GroupOptions := ⟨none, none, none, none, none, none⟩

def RResult.bind {α β : Type} (r : RResult α) (f : α → RResult β) : RResult β :=
  match r with
  | .ok a => f a
  | .error e => .error e
  | .panicked => .panicked

def RResult.map {α β : Type} (f : α → β) (r : RResult α) : RResult β :=
  match r with
  | .ok a => .ok (f a)
  | .error e => .error e
  | .panicked => .panicked

/-- Insertion into the `HashMap<String, String>` model (later insertions
override earlier ones, as `collect`/`extend` do). -/
def hm_insert (m : String → Option String) (k v : String) :
    String → Option String :=
  fun q => if q = k then some v else m q

/-- Rust `str::split(c)` on the character list of a string
(an empty input yields one empty chunk, as in Rust). -/
def split_char (c : Char) : List Char → List (List Char)
  | [] => [[]]
  | x :: rest =>
    match split_char c rest with
    | [] => [[]]  -- unreachable: split_char never returns []
    | y :: ys => if x = c then [] :: y :: ys else (x :: y) :: ys

/-- Rust `str::split(predicate)`. -/
def split_pred (p : Char → Bool) : List Char → List (List Char)
  | [] => [[]]
  | x :: rest =>
    match split_pred p rest with
    | [] => [[]]  -- unreachable
    | y :: ys => if p x then [] :: y :: ys else (x :: y) :: ys

/-- ASCII whitespace (the inputs considered here are ASCII). -/
def is_ws (c : Char) : Bool :=
  c == ' ' || c == '\t' || c == '\n' || c == '\r'

/-- Rust `str::trim` (restricted to ASCII whitespace). -/
def trim_ascii (s : List Char) : List Char :=
  ((s.dropWhile is_ws).reverse.dropWhile is_ws).reverse

/-- Rust `str::to_lowercase` (restricted to ASCII letters). -/
def lower_char (c : Char) : Char :=
  if 'A' ≤ c ∧ c ≤ 'Z' then Char.ofNat (c.toNat + 32) else c

def lower_str (s : String) : String := (s.data.map lower_char).asString

/-- The style map of `create_command`: the style attribute split on
semicolons, each part split on a colon into a trimmed key and value. -/
def style_of_attr (s : String) : String → Option String :=
  (split_char ';' s.data).foldl
    (fun m part =>
      hm_insert m (trim_ascii (((split_char ':' part).get? 0).getD [])).asString
        (trim_ascii (((split_char ':' part).get? 1).getD [])).asString)
    (fun _ => none)

/-- `style.extend(attributes)`: the presentation attributes (names and
values lowercased) override the style map. -/
def extend_map (m : String → Option String)
    (attrs : List (String × String)) : String → Option String :=
  attrs.foldl (fun m kv => hm_insert m (lower_str kv.1) (lower_str kv.2)) m

/-- The merged style map of a node (style attribute, then attributes). -/
def node_style (node : Node) : String → Option String :=
  extend_map (style_of_attr ((node.attribute "style").getD "")) node.attrs

/-- `stroke.map(|c| Color::try_from_hex(c).unwrap_or_default()).unwrap_or_default()`:
a missing color or a failed parse silently becomes the default color;
a panic inside `try_from_hex` still propagates. -/
def resolve_color (c : Option String) : RResult Color :=
  match c with
  | none => .ok Color.default
  | some s =>
    match Color.try_from_hex s with
    | .ok col => .ok col
    | .error _ => .ok Color.default
    | .panicked => .panicked

/-- The opacity resolution pattern of `create_command`:
`style.get(k).map_or(group_value, |o| Some(o.parse().unwrap())).unwrap_or(1.0) as f32`.
A present but unparsable value panics. -/
def opacity_value (exts : Externals) (styleVal : Option String)
    (groupVal : Option ℚ) : RResult ℚ :=
  match styleVal with
  | some o =>
    match exts.parse_f64 o with
    | some v => .ok (f32round v)
    | none => .panicked
  | none => .ok (f32round (groupVal.getD 1))

/-- The stroke width resolution of `create_command`:
`style.get("stroke-width").map_or(group.stroke_width, |w| w.parse::<f32>().map(|n| n as u8).ok())`. -/
def resolved_stroke_width (exts : Externals) (style : String → Option String)
    (group_options : GroupOptions) : Option ℕ :=
  match style "stroke-width" with
  | none => group_options.stroke_width
  | some w => (exts.parse_f32 w).map satU8

/-- The two color policies of `create_command`. -/
def quantize (truncate_color : TruncateColor) (c : Color) : PebbleColor :=
  match truncate_color with
  | .Truncate => PebbleColor.from_color_with_truncate c
  | .Keep => PebbleColor.from_color_with_convert c

/-- Lines 196-230 of svg_converter.rs: the black-fill caveat, the
stroke-width and stroke-color cross constraints, and the assembly of the
emitted DrawOptions. -/
def make_options (translation : FPoint) (precision : Precision)
    (conversion : Conversion) (stroke_pc fill_pc : PebbleColor)
    (stroke_width_opt : Option ℕ) : DrawOptions :=
  ⟨translation,
    -- stroke_width: 0 when the stroke color is "nothing"
    (if stroke_pc = PebbleColor.nothing then 0 else stroke_width_opt.getD 1),
    -- stroke_color: "nothing" when the final stroke width is 0
    (if (if stroke_pc = PebbleColor.nothing then 0 else stroke_width_opt.getD 1) = 0
      then PebbleColor.nothing else stroke_pc).inner,
    -- fill_color: a black fill is treated as transparent (pebble caveat)
    (if fill_pc.is_black then PebbleColor.nothing else fill_pc).inner,
    precision, conversion⟩

/-- One step of the path flattening loop: every segment kind is reduced
to its destination point; relative segments add the current point. -/
def path_step (st : List FPoint × FPoint) (seg : PathSegment) :
    List FPoint × FPoint :=
  match seg with
  | .MoveTo ab x y | .LineTo ab x y | .SmoothCurveTo ab x y | .CurveTo ab x y
  | .Quadratic ab x y | .SmoothQuadratic ab x y | .EllipticalArc ab x y =>
    (st.1 ++ [if ab then FPoint.mk x y else (FPoint.mk x y).add st.2],
      if ab then FPoint.mk x y else (FPoint.mk x y).add st.2)
  | .HorizontalLineTo ab x =>
    (st.1 ++ [if ab then FPoint.mk x st.2.y else (FPoint.mk x st.2.y).add st.2],
      if ab then FPoint.mk x st.2.y else (FPoint.mk x st.2.y).add st.2)
  | .VerticalLineTo ab y =>
    (st.1 ++ [if ab then FPoint.mk st.2.x y else (FPoint.mk st.2.x y).add st.2],
      if ab then FPoint.mk st.2.x y else (FPoint.mk st.2.x y).add st.2)
  | .ClosePath =>
    -- if current_point != *points.first().unwrap_or(&default) { push(points[0]) }
    if st.2 ≠ (st.1.head?.getD ⟨0, 0⟩)
      then (st.1 ++ [st.1.head?.getD ⟨0, 0⟩], st.2)
      else st

/-- The accumulated path points (current point starts at the default). -/
def path_points_raw (segs : List PathSegment) : List FPoint :=
  (segs.foldl path_step ([], ⟨0, 0⟩)).1

/-- Path coordinates are floored, not rounded, for bit compatibility
with the original encoder. -/
def path_floor (points : List FPoint) : List FPoint :=
  points.map (fun p => ⟨(⌊p.x⌋ : ℚ), (⌊p.y⌋ : ℚ)⟩)

/-- A path is open when its first and last floored points differ. -/
def path_open (points : List FPoint) : Bool :=
  decide ((points.head?.getD ⟨0, 0⟩) ≠ (points.getLast?.getD ⟨0, 0⟩))

/-- Source: `SvgConverter::parse_path`. -/
def parse_path (exts : Externals) (node : Node) (options : DrawOptions) :
    RResult DrawCommand :=
  match exts.parse_path_segments ((node.attribute "d").getD "") with
  | none => .error (.SvgTypesError ((node.attribute "d").getD ""))
  | some segs =>
    match (if path_open (path_floor (path_points_raw segs))
        then path_floor (path_points_raw segs)
        else (path_floor (path_points_raw segs)).dropLast).mapM
        (fun p => p.pebble_coordinates options.precision options.conversion) with
    | .error e => .error e
    | .ok pts =>
      .ok (.Path pts (path_open (path_floor (path_points_raw segs))) options)

/-- Source: `SvgConverter::parse_circle`.  The center is quantized with
the literal `Precision::Normal` (circles do not support precise
coordinates), while the emitted options keep the requested precision. -/
def parse_circle (exts : Externals) (node : Node) (options : DrawOptions) :
    RResult DrawCommand :=
  match (node.attribute "cx").bind exts.parse_f32 with
  | none => .error .UnsupportedCircle
  | some cx =>
    match (node.attribute "cy").bind exts.parse_f32 with
    | none => .error .UnsupportedCircle
    | some cy =>
      -- match node.attribute("r") { Some(r) => Some(r), None => attribute("z") }
      match ((node.attribute "r").or (node.attribute "z")).bind exts.parse_f32 with
      | none => .error .UnsupportedCircle
      | some radius =>
        match FPoint.pebble_coordinates ⟨cx, cy⟩ .Normal options.conversion with
        | .error e => .error e
        | .ok center => .ok (.Circle center (satU16 radius) options)

/-- Source: `SvgConverter::get_points_from_str` (whitespace-separated
chunks, each `x,y`). -/
def get_points_from_str (exts : Externals) (points : String) :
    Except Svg2PdcError (List FPoint) :=
  match ((split_pred is_ws points.data).filter (fun c => c ≠ [])).mapM
      (fun chunk =>
        match exts.parse_f32 ((((split_char ',' chunk).get? 0).getD []).asString),
            exts.parse_f32 ((((split_char ',' chunk).get? 1).getD []).asString) with
        | some x, some y => some (FPoint.mk x y)
        | _, _ => none) with
  | some ps => .ok ps
  | none => .error (.ParseError points)

/-- Source: `SvgConverter::parse_polyline` (always open).  The debug
dump of the node in the error payload is abbreviated to its tag. -/
def parse_polyline (exts : Externals) (node : Node) (options : DrawOptions) :
    RResult DrawCommand :=
  match node.attribute "points" with
  | none => .error (.InvalidPolyline node.tag)
  | some pts =>
    match get_points_from_str exts pts with
    | .error e => .error e
    | .ok points =>
      match points.mapM
          (fun p => p.pebble_coordinates options.precision options.conversion) with
      | .error e => .error e
      | .ok ps => .ok (.Path ps true options)

/-- Source: `SvgConverter::parse_polygon` (always closed). -/
def parse_polygon (exts : Externals) (node : Node) (options : DrawOptions) :
    RResult DrawCommand :=
  match node.attribute "points" with
  | none => .error (.InvalidPolyline node.tag)
  | some pts =>
    match get_points_from_str exts pts with
    | .error e => .error e
    | .ok points =>
      match points.mapM
          (fun p => p.pebble_coordinates options.precision options.conversion) with
      | .error e => .error e
      | .ok ps => .ok (.Path ps false options)

/-- Source: `SvgConverter::parse_line`. -/
def parse_line (exts : Externals) (node : Node) (options : DrawOptions) :
    RResult DrawCommand :=
  match (node.attribute "x1").bind exts.parse_f32 with
  | none => .error (.InvalidPolyline node.tag)
  | some x1 =>
    match (node.attribute "y1").bind exts.parse_f32 with
    | none => .error (.InvalidPolyline node.tag)
    | some y1 =>
      match (node.attribute "x2").bind exts.parse_f32 with
      | none => .error (.InvalidPolyline node.tag)
      | some x2 =>
        match (node.attribute "y2").bind exts.parse_f32 with
        | none => .error (.InvalidPolyline node.tag)
        | some y2 =>
          match (FPoint.mk x1 y1).pebble_coordinates
              options.precision options.conversion with
          | .error e => .error e
          | .ok p1 =>
            match (FPoint.mk x2 y2).pebble_coordinates
                options.precision options.conversion with
            | .error e => .error e
            | .ok p2 => .ok (.Path [p1, p2] true options)

/-- Source: `SvgConverter::parse_rect` (clockwise corners from (x, y);
the corner sums are f32 additions). -/
def parse_rect (exts : Externals) (node : Node) (options : DrawOptions) :
    RResult DrawCommand :=
  match (node.attribute "x").bind exts.parse_f32 with
  | none => .error (.InvalidPolyline node.tag)
  | some x =>
    match (node.attribute "y").bind exts.parse_f32 with
    | none => .error (.InvalidPolyline node.tag)
    | some y =>
      match (node.attribute "width").bind exts.parse_f32 with
      | none => .error (.InvalidPolyline node.tag)
      | some width =>
        match (node.attribute "height").bind exts.parse_f32 with
        | none => .error (.InvalidPolyline node.tag)
        | some height =>
          match (FPoint.mk x y).pebble_coordinates
              options.precision options.conversion with
          | .error e => .error e
          | .ok p1 =>
            match (FPoint.mk (f32round (x + width)) y).pebble_coordinates
                options.precision options.conversion with
            | .error e => .error e
            | .ok p2 =>
              match (FPoint.mk (f32round (x + width)) (f32round (y + height))).pebble_coordinates
                  options.precision options.conversion with
              | .error e => .error e
              | .ok p3 =>
                match (FPoint.mk x (f32round (y + height))).pebble_coordinates
                    options.precision options.conversion with
                | .error e => .error e
                | .ok p4 => .ok (.Path [p1, p2, p3, p4] false options)

/-- Source: `SvgConverter::get_child_translation`: the first translate
token of the transform attribute, defaulting to (0, 0). -/
def get_child_translation (exts : Externals) (child : Node) : RResult FPoint :=
  match exts.parse_transform ((child.attribute "transform").getD "") with
  | none => .error (.SvgTypesError ((child.attribute "transform").getD ""))
  | some toks =>
    match toks.find? (fun t => match t with
      | .Translate _ _ => true
      | _ => false) with
    | some (.Translate tx ty) => .ok ⟨tx, ty⟩
    | some .Other => .ok ⟨0, 0⟩  -- unreachable arm `_ => FPoint::default()`
    | none => .ok ⟨0, 0⟩         -- unwrap_or(Translate { tx: 0.0, ty: 0.0 })

/-- The tag dispatch at the end of `create_command`: shape parsers,
`unreachable!()` on nested containers, silent skip of text nodes and of
unsupported tags. -/
def dispatch_shape (exts : Externals) (node : Node) (options : DrawOptions) :
    RResult (Option DrawCommand) :=
  if node.tag = "path" then RResult.map some (parse_path exts node options)
  else if node.tag = "circle" then RResult.map some (parse_circle exts node options)
  else if node.tag = "polyline" then RResult.map some (parse_polyline exts node options)
  else if node.tag = "polygon" then RResult.map some (parse_polygon exts node options)
  else if node.tag = "line" then RResult.map some (parse_line exts node options)
  else if node.tag = "rect" then RResult.map some (parse_rect exts node options)
  else if node.tag = "g" ∨ node.tag = "layer" then .panicked  -- unreachable!()
  else if node.tag = "" then .ok none  -- skip empty nodes
  else .ok none  -- unsupported tag: logged and skipped

/-- Source: `SvgConverter::create_command`. -/
def create_command (exts : Externals) (precision : Precision)
    (translation : FPoint) (truncate_color : TruncateColor)
    (group_options : GroupOptions) (conversion : Conversion)
    (node : Node) : RResult (Option DrawCommand) :=
  RResult.bind (opacity_value exts (node_style node "opacity")
      group_options.opacity) fun opacity =>
  RResult.bind (opacity_value exts (node_style node "stroke-opacity")
      group_options.stroke_opacity) fun stroke_opacity =>
  RResult.bind (opacity_value exts (node_style node "fill-opacity")
      group_options.fill_opacity) fun fill_opacity =>
  RResult.bind (resolve_color ((node_style node "stroke").or
      group_options.stroke_color)) fun stroke_base =>
  RResult.bind (resolve_color ((node_style node "fill").or
      group_options.fill_color)) fun fill_base =>
  dispatch_shape exts node
    (make_options translation precision conversion
      (quantize truncate_color (stroke_base.with_opacity
        (satU8 (f32round (f32round (opacity * stroke_opacity) * 255)))))
      (quantize truncate_color (fill_base.with_opacity
        (satU8 (f32round (f32round (opacity * fill_opacity) * 255)))))
      (resolved_stroke_width exts (node_style node) group_options))

/-- Model of `u8::from_str` (decimal), used for group stroke widths. -/
def parse_u8_dec (s : String) : Option ℕ :=
  match (match s.data with
    | '+' :: rest => rest
    | l => l) with
  | [] => none
  | digits =>
    if digits.all Char.isDigit then
      if digits.foldl (fun acc c => acc * 10 + (c.toNat - 48)) 0 ≤ 255 then
        some (digits.foldl (fun acc c => acc * 10 + (c.toNat - 48)) 0)
      else none
    else none

/-- The `GroupOptions` literal built for a `g` child in `get_commands`;
each `parse().unwrap()` panics on failure, and the stroke width keeps
only digits and dots before the u8 parse. -/
def parse_group_options (exts : Externals) (child : Node) :
    RResult GroupOptions :=
  RResult.bind (match child.attribute "opacity" with
    | none => .ok none
    | some o => match exts.parse_f64 o with
      | some v => .ok (some v)
      | none => .panicked) fun opacity =>
  RResult.bind (match child.attribute "fill-opacity" with
    | none => .ok none
    | some o => match exts.parse_f64 o with
      | some v => .ok (some v)
      | none => .panicked) fun fill_opacity =>
  RResult.bind (match child.attribute "stroke-opacity" with
    | none => .ok none
    | some o => match exts.parse_f64 o with
      | some v => .ok (some v)
      | none => .panicked) fun stroke_opacity =>
  RResult.bind (match child.attribute "stroke-width" with
    | none => .ok none
    | some w =>
      match parse_u8_dec ((w.data.filter
          (fun c => ("1234567890.".data.contains c))).asString) with
      | some v => .ok (some v)
      | none => .panicked) fun stroke_width =>
  .ok ⟨opacity, child.attribute "fill", fill_opacity,
    child.attribute "stroke", stroke_opacity, stroke_width⟩

mutual

/-- Source: `SvgConverter::get_commands`, the recursive scene walk over
a node (iterating its children). -/
def get_commands (exts : Externals) (precision : Precision)
    (translation : FPoint) (truncate_color : TruncateColor)
    (group_options : GroupOptions) (conversion : Conversion) :
    Node → RResult (List DrawCommand)
  | .mk _ _ children =>
    get_commands_list exts precision translation truncate_color
      group_options conversion children

/-- The child loop of `get_commands`.  `display="none"` skips the
subtree; `layer` children fall into the container arm but are not
recursed into (the body only runs for `g`); other children become at
most one command each. -/
def get_commands_list (exts : Externals) (precision : Precision)
    (translation : FPoint) (truncate_color : TruncateColor)
    (group_options : GroupOptions) (conversion : Conversion) :
    List Node → RResult (List DrawCommand)
  | [] => .ok []
  | child :: rest =>
    if child.attribute "display" = some "none" then
      get_commands_list exts precision translation truncate_color
        group_options conversion rest
    else if child.tag = "layer" ∨ child.tag = "g" then
      if child.tag = "g" then
        RResult.bind (parse_group_options exts child) fun subgroup_options =>
        RResult.bind (get_child_translation exts child) fun translate =>
        RResult.bind (get_commands exts precision (translate.add translation)
          truncate_color subgroup_options conversion child) fun sub =>
        RResult.bind (get_commands_list exts precision translation
          truncate_color group_options conversion rest) fun restc =>
        .ok (sub ++ restc)
      else
        get_commands_list exts precision translation truncate_color
          group_options conversion rest
    else
      RResult.bind (get_child_translation exts child) fun translate =>
      RResult.bind (create_command exts precision (translate.add translation)
        truncate_color group_options conversion child) fun cmd =>
      RResult.bind (get_commands_list exts precision translation
        truncate_color group_options conversion rest) fun restc =>
      .ok (match cmd with
        | some c => c :: restc
        | none => restc)

end

/-- Source: `SvgConverter::get_viewbox`.  The width/height fallback
parses with `unwrap()` (panics on failure). -/
def get_viewbox (exts : Externals) (root : Node) : RResult ViewBox :=
  match root.attribute "viewBox" with
  | some vb =>
    match exts.parse_viewbox vb with
    | some v => .ok v
    | none => .error (.InvalidViewBox vb)
  | none =>
    match exts.parse_f64 ((root.attribute "width").getD "0") with
    | none => .panicked
    | some w =>
      match exts.parse_f64 ((root.attribute "height").getD "0") with
      | none => .panicked
      | some h => .ok ⟨0, 0, w, h⟩

/-- Source: `SvgConverter::parse_svg_image`, the conversion entry point
(the converter struct field `precision` is passed explicitly). -/
def parse_svg_image (exts : Externals) (precision : Precision)
    (content : String) (truncate_color : TruncateColor)
    (conversion : Conversion) : RResult PebbleImage :=
  match exts.parse_xml content with
  | none => .error (.XmlError content)
  | some root =>
    RResult.bind (get_viewbox exts root) fun view_box =>
    match FPoint.pebble_coordinates ⟨f32round view_box.w, f32round view_box.h⟩
        precision conversion with
    | .error e => .error e
    | .ok size =>
      RResult.bind (get_commands exts precision
        ⟨f32round (-view_box.x), f32round (-view_box.y)⟩
        truncate_color GroupOptions.default conversion root) fun commands =>
      .ok ⟨size, commands⟩

/-! ### Invariants of the emitted draw options (claims C5 and C7) -/

theorem bind_ok {α β : Type} (r : RResult α) (f : α → RResult β) (b : β)
    (h : RResult.bind r f = .ok b) : ∃ a, r = .ok a ∧ f a = .ok b := by
  cases r with
  | ok a => exact ⟨a, rfl, h⟩
  | error e => exact RResult.noConfusion h
  | panicked => exact RResult.noConfusion h

theorem map_some_ok {α : Type} (r : RResult α) (b : α)
    (h : RResult.map some r = .ok (some b)) : r = .ok b := by
  cases r with
  | ok a =>
    simp only [RResult.map, RResult.ok.injEq, Option.some.injEq] at h
    rw [h]
  | error e => exact RResult.noConfusion h
  | panicked => exact RResult.noConfusion h

theorem parse_path_preserves_options (exts : Externals) (node : Node)
    (options : DrawOptions) (cmd : DrawCommand)
    (h : parse_path exts node options = .ok cmd) : cmd.options = options := by
  unfold parse_path at h
  repeat' split at h
  all_goals first
    | exact RResult.noConfusion h
    | (injection h with hA; subst hA; rfl)

theorem parse_circle_preserves_options (exts : Externals) (node : Node)
    (options : DrawOptions) (cmd : DrawCommand)
    (h : parse_circle exts node options = .ok cmd) : cmd.options = options := by
  unfold parse_circle at h
  repeat' split at h
  all_goals first
    | exact RResult.noConfusion h
    | (injection h with hA; subst hA; rfl)

theorem parse_polyline_preserves_options (exts : Externals) (node : Node)
    (options : DrawOptions) (cmd : DrawCommand)
    (h : parse_polyline exts node options = .ok cmd) : cmd.options = options := by
  unfold parse_polyline at h
  repeat' split at h
  all_goals first
    | exact RResult.noConfusion h
    | (injection h with hA; subst hA; rfl)

theorem parse_polygon_preserves_options (exts : Externals) (node : Node)
    (options : DrawOptions) (cmd : DrawCommand)
    (h : parse_polygon exts node options = .ok cmd) : cmd.options = options := by
  unfold parse_polygon at h
  repeat' split at h
  all_goals first
    | exact RResult.noConfusion h
    | (injection h with hA; subst hA; rfl)

theorem parse_line_preserves_options (exts : Externals) (node : Node)
    (options : DrawOptions) (cmd : DrawCommand)
    (h : parse_line exts node options = .ok cmd) : cmd.options = options := by
  unfold parse_line at h
  repeat' split at h
  all_goals first
    | exact RResult.noConfusion h
    | (injection h with hA; subst hA; rfl)

theorem parse_rect_preserves_options (exts : Externals) (node : Node)
    (options : DrawOptions) (cmd : DrawCommand)
    (h : parse_rect exts node options = .ok cmd) : cmd.options = options := by
  unfold parse_rect at h
  repeat' split at h
  all_goals first
    | exact RResult.noConfusion h
    | (injection h with hA; subst hA; rfl)

theorem dispatch_shape_preserves_options (exts : Externals) (node : Node)
    (options : DrawOptions) (cmd : DrawCommand)
    (h : dispatch_shape exts node options = .ok (some cmd)) :
    cmd.options = options := by
  unfold dispatch_shape at h
  split_ifs at h
  · exact parse_path_preserves_options _ _ _ _ (map_some_ok _ _ h)
  · exact parse_circle_preserves_options _ _ _ _ (map_some_ok _ _ h)
  · exact parse_polyline_preserves_options _ _ _ _ (map_some_ok _ _ h)
  · exact parse_polygon_preserves_options _ _ _ _ (map_some_ok _ _ h)
  · exact parse_line_preserves_options _ _ _ _ (map_some_ok _ _ h)
  · exact parse_rect_preserves_options _ _ _ _ (map_some_ok _ _ h)
  all_goals first
    | exact RResult.noConfusion h
    | simp at h

/-- Every command produced by `create_command` carries options built by
`make_options` with the precision and conversion of the converter. -/
theorem create_command_options_shape (exts : Externals) (precision : Precision)
    (translation : FPoint) (truncate_color : TruncateColor)
    (group_options : GroupOptions) (conversion : Conversion) (node : Node)
    (cmd : DrawCommand)
    (h : create_command exts precision translation truncate_color
      group_options conversion node = .ok (some cmd)) :
    ∃ t spc fpc swo,
      cmd.options = make_options t precision conversion spc fpc swo := by
  unfold create_command at h
  obtain ⟨op, _, h⟩ := bind_ok _ _ _ h
  obtain ⟨sop, _, h⟩ := bind_ok _ _ _ h
  obtain ⟨fop, _, h⟩ := bind_ok _ _ _ h
  obtain ⟨sb, _, h⟩ := bind_ok _ _ _ h
  obtain ⟨fb, _, h⟩ := bind_ok _ _ _ h
  exact ⟨_, _, _, _, dispatch_shape_preserves_options _ _ _ _ h⟩

/-- The cross-constraint pass: in every `make_options` result, the
stroke width is zero exactly when the stroke color byte is zero. -/
theorem make_options_stroke_invariant (t : FPoint) (p : Precision)
    (c : Conversion) (spc fpc : PebbleColor) (swo : Option ℕ) :
    ((make_options t p c spc fpc swo).stroke_width = 0 ↔
      (make_options t p c spc fpc swo).stroke_color = 0) := by
  obtain ⟨v⟩ := spc
  unfold make_options
  by_cases h1 : PebbleColor.mk v = PebbleColor.nothing
  · simp [h1, PebbleColor.inner, PebbleColor.nothing]
  · by_cases h2 : swo.getD 1 = 0
    · simp [h1, h2, PebbleColor.inner, PebbleColor.nothing]
    · have hv : v ≠ 0 := by
        intro hv
        exact h1 (by rw [PebbleColor.nothing, hv])
      simp [h1, h2, PebbleColor.inner, PebbleColor.nothing, hv]

/-- The black-fill caveat: in every `make_options` result, a fill byte
whose low six bits (the RGB fields) are zero is the whole zero byte. -/
theorem make_options_fill_invariant (t : FPoint) (p : Precision)
    (c : Conversion) (spc fpc : PebbleColor) (swo : Option ℕ) :
    PebbleColor.is_black ⟨(make_options t p c spc fpc swo).fill_color⟩ = true →
    (make_options t p c spc fpc swo).fill_color = 0 := by
  obtain ⟨v⟩ := fpc
  unfold make_options
  by_cases h : PebbleColor.is_black ⟨v⟩
  · simp [h, PebbleColor.inner, PebbleColor.nothing]
  · simp only [if_neg h]
    intro hb
    exact absurd hb h

/-- Lifting the options shape through the recursive scene walk. -/
theorem get_commands_list_options (exts : Externals) (precision : Precision)
    (conversion : Conversion) (l : List Node) (translation : FPoint)
    (truncate_color : TruncateColor) (group_options : GroupOptions)
    (cmds : List DrawCommand)
    (h : get_commands_list exts precision translation truncate_color
      group_options conversion l = .ok cmds) :
    ∀ cmd ∈ cmds, ∃ t spc fpc swo,
      cmd.options = make_options t precision conversion spc fpc swo := by
  match l with
  | [] =>
    injection h with hA
    subst hA
    intro cmd hc
    exact absurd hc (List.not_mem_nil cmd)
  | .mk ctag cattrs cchildren :: rest =>
    unfold get_commands_list at h
    split at h
    · exact get_commands_list_options exts precision conversion rest
        translation truncate_color group_options cmds h
    · split at h
      · split at h
        · obtain ⟨sg, _, h⟩ := bind_ok _ _ _ h
          obtain ⟨tr, _, h⟩ := bind_ok _ _ _ h
          obtain ⟨sub, hsub, h⟩ := bind_ok _ _ _ h
          obtain ⟨restc, hrest, h⟩ := bind_ok _ _ _ h
          injection h with hA
          subst hA
          intro cmd hc
          rcases List.mem_append.mp hc with hc | hc
          · have hsub2 : get_commands_list exts precision (tr.add translation)
                truncate_color sg conversion cchildren = .ok sub := by
              rw [← hsub]
              rfl
            exact get_commands_list_options exts precision conversion cchildren
              (tr.add translation) truncate_color sg sub hsub2 cmd hc
          · exact get_commands_list_options exts precision conversion rest
              translation truncate_color group_options restc hrest cmd hc
        · exact get_commands_list_options exts precision conversion rest
            translation truncate_color group_options cmds h
      · obtain ⟨tr, _, h⟩ := bind_ok _ _ _ h
        obtain ⟨cmd0, hcmd, h⟩ := bind_ok _ _ _ h
        obtain ⟨restc, hrest, h⟩ := bind_ok _ _ _ h
        injection h with hA
        subst hA
        intro cmd hc
        cases cmd0 with
        | some c =>
          rcases List.mem_cons.mp hc with hc | hc
          · subst hc
            exact create_command_options_shape _ _ _ _ _ _ _ _ hcmd
          · exact get_commands_list_options exts precision conversion rest
              translation truncate_color group_options restc hrest cmd hc
        | none =>
          exact get_commands_list_options exts precision conversion rest
            translation truncate_color group_options restc hrest cmd hc
termination_by sizeOf l
decreasing_by all_goals simp_wf <;> omega

/-- The options shape for the entry point. -/
theorem parse_svg_image_options (exts : Externals) (precision : Precision)
    (content : String) (truncate_color : TruncateColor)
    (conversion : Conversion) (img : PebbleImage)
    (h : parse_svg_image exts precision content truncate_color conversion =
      .ok img) :
    ∀ cmd ∈ img.commands, ∃ t spc fpc swo,
      cmd.options = make_options t precision conversion spc fpc swo := by
  unfold parse_svg_image at h
  split at h
  · exact RResult.noConfusion h
  · rename_i root hroot
    obtain ⟨vb, _, h⟩ := bind_ok _ _ _ h
    split at h
    · exact RResult.noConfusion h
    · obtain ⟨commands, hcs, h⟩ := bind_ok _ _ _ h
      injection h with hA
      subst hA
      intro cmd hc
      obtain ⟨rtag, rattrs, rchildren⟩ := root
      have hcs2 : get_commands_list exts precision
          ⟨f32round (-vb.x), f32round (-vb.y)⟩ truncate_color
          GroupOptions.default conversion rchildren = .ok commands := by
        rw [← hcs]
        rfl
      exact get_commands_list_options exts precision conversion rchildren
        _ truncate_color GroupOptions.default commands hcs2 cmd hc

/-! ### A concrete conversion fixture

One SVG document with a single circle whose stroke is the invalid color
string "zz0000"; the oracles are instantiated with the values the real
crates produce on the strings this document contains. -/

def fixture_circle : Node :=
  .mk "circle" [("cx", "4"), ("cy", "4"), ("r", "2"), ("stroke", "zz0000")] []

def fixture_root : Node := .mk "svg" [("viewBox", "0 0 10 10")] [fixture_circle]

def fixture_doc : String :=
  "<svg viewBox=\"0 0 10 10\"><circle cx=\"4\" cy=\"4\" r=\"2\" stroke=\"zz0000\"/></svg>"

def fixture_exts : Externals where
  parse_f32 := fun s => if s = "4" then some 4 else if s = "2" then some 2 else none
  parse_f64 := fun _ => none
  parse_viewbox := fun s => if s = "0 0 10 10" then some ⟨0, 0, 10, 10⟩ else none
  parse_path_segments := fun _ => none
  parse_transform := fun s => if s = "" then some [] else none
  parse_xml := fun s => if s = fixture_doc then some fixture_root else none

def fixture_options : DrawOptions := ⟨⟨0, 0⟩, 1, 192, 0, .Normal, .RequireExact⟩

def fixture_image : PebbleImage := ⟨⟨10, 10⟩, [.Circle ⟨4, 4⟩ 2 fixture_options]⟩

theorem f32round_one : f32round (1 : ℚ) = 1 := by
  have h := f32round_nat 1 (by norm_num)
  norm_num at h
  exact h

theorem f32round_255 : f32round (255 : ℚ) = 255 := by
  have h := f32round_nat 255 (by norm_num)
  norm_num at h
  exact h

theorem f32round_ten : f32round (10 : ℚ) = 10 := by
  have h := f32round_nat 10 (by norm_num)
  norm_num at h
  exact h

theorem fixture_pc44 :
    FPoint.pebble_coordinates ⟨(4 : ℚ), (4 : ℚ)⟩ .Normal .RequireExact = .ok ⟨4, 4⟩ := by
  have h := pebble_coordinates_nat_normal 4 4 .RequireExact
    (by norm_num) (by norm_num) (by norm_num) (by norm_num)
  norm_num at h
  exact h

theorem fixture_pc1010 :
    FPoint.pebble_coordinates ⟨(10 : ℚ), (10 : ℚ)⟩ .Normal .RequireExact = .ok ⟨10, 10⟩ := by
  have h := pebble_coordinates_nat_normal 10 10 .RequireExact
    (by norm_num) (by norm_num) (by norm_num) (by norm_num)
  norm_num at h
  exact h

theorem fixture_alpha :
    satU8 (f32round (f32round ((1 : ℚ) * 1) * 255)) = 255 := by
  rw [show ((1 : ℚ) * 1) = 1 by norm_num, f32round_one,
    show ((1 : ℚ) * 255) = 255 by norm_num, f32round_255]
  norm_num [satU8]

theorem fixture_make_options :
    make_options ⟨0, 0⟩ .Normal .RequireExact ⟨192⟩ ⟨192⟩
      (resolved_stroke_width fixture_exts (node_style fixture_circle)
        GroupOptions.default) = fixture_options := by
  rw [show resolved_stroke_width fixture_exts (node_style fixture_circle)
    GroupOptions.default = none from by decide]
  unfold make_options fixture_options
  rw [if_neg (by decide : ¬(PebbleColor.mk 192 = PebbleColor.nothing)),
    if_neg (by decide : ¬(Option.getD (none : Option ℕ) 1 = 0)),
    if_pos (by decide : PebbleColor.is_black ⟨192⟩ = true)]
  rfl

theorem fixture_create_command :
    create_command fixture_exts .Normal ⟨0, 0⟩ .Truncate GroupOptions.default
      .RequireExact fixture_circle = .ok (some (.Circle ⟨4, 4⟩ 2 fixture_options)) := by
  have h_op : opacity_value fixture_exts (node_style fixture_circle "opacity")
      GroupOptions.default.opacity = .ok 1 := by
    rw [show node_style fixture_circle "opacity" = none from by decide]
    show RResult.ok (f32round (Option.getD none 1)) = RResult.ok 1
    rw [show Option.getD (none : Option ℚ) 1 = 1 from rfl, f32round_one]
  have h_sop : opacity_value fixture_exts (node_style fixture_circle "stroke-opacity")
      GroupOptions.default.stroke_opacity = .ok 1 := by
    rw [show node_style fixture_circle "stroke-opacity" = none from by decide]
    show RResult.ok (f32round (Option.getD none 1)) = RResult.ok 1
    rw [show Option.getD (none : Option ℚ) 1 = 1 from rfl, f32round_one]
  have h_fop : opacity_value fixture_exts (node_style fixture_circle "fill-opacity")
      GroupOptions.default.fill_opacity = .ok 1 := by
    rw [show node_style fixture_circle "fill-opacity" = none from by decide]
    show RResult.ok (f32round (Option.getD none 1)) = RResult.ok 1
    rw [show Option.getD (none : Option ℚ) 1 = 1 from rfl, f32round_one]
  have h_sb : resolve_color ((node_style fixture_circle "stroke").or
      GroupOptions.default.stroke_color) = .ok Color.default := by decide
  have h_fb : resolve_color ((node_style fixture_circle "fill").or
      GroupOptions.default.fill_color) = .ok Color.default := by decide
  have h_spc : quantize .Truncate (Color.default.with_opacity
      (satU8 (f32round (f32round ((1 : ℚ) * 1) * 255)))) = ⟨192⟩ := by
    rw [fixture_alpha]
    decide
  have h_circle : parse_circle fixture_exts fixture_circle fixture_options =
      .ok (.Circle ⟨4, 4⟩ 2 fixture_options) := by
    unfold parse_circle
    rw [show (fixture_circle.attribute "cx").bind fixture_exts.parse_f32 =
      some ((4 : ℚ)) from by decide]
    rw [show (fixture_circle.attribute "cy").bind fixture_exts.parse_f32 =
      some ((4 : ℚ)) from by decide]
    rw [show ((fixture_circle.attribute "r").or
        (fixture_circle.attribute "z")).bind fixture_exts.parse_f32 =
      some ((2 : ℚ)) from by decide]
    simp only []
    rw [show fixture_options.conversion = Conversion.RequireExact from rfl,
      fixture_pc44]
    simp only []
    rw [show satU16 ((2 : ℚ)) = 2 from by
      unfold satU16
      norm_num
      rfl]
  unfold create_command
  rw [h_op, h_sop, h_fop, h_sb, h_fb]
  simp only [RResult.bind]
  rw [h_spc, fixture_make_options]
  unfold dispatch_shape
  rw [if_neg (by decide : ¬(fixture_circle.tag = "path")),
    if_pos (by decide : fixture_circle.tag = "circle"), h_circle]
  rfl

theorem fixture_parse_eval :
    parse_svg_image fixture_exts .Normal fixture_doc .Truncate .RequireExact =
      .ok fixture_image := by
  have h_tr : FPoint.mk (f32round (-(0 : ℚ))) (f32round (-(0 : ℚ))) =
      FPoint.mk 0 0 := by
    norm_num [f32round]
  have h_add : FPoint.add ⟨0, 0⟩ ⟨0, 0⟩ = FPoint.mk 0 0 := by
    unfold FPoint.add
    norm_num [f32round]
  have h_gct : get_child_translation fixture_exts fixture_circle = .ok ⟨0, 0⟩ := by
    unfold get_child_translation
    rw [show (fixture_circle.attribute "transform").getD "" = "" from by decide]
    rw [show fixture_exts.parse_transform "" = some [] from by decide]
    rfl
  have h_nil : get_commands_list fixture_exts .Normal (FPoint.mk 0 0) .Truncate
      GroupOptions.default .RequireExact [] = .ok [] := by
    unfold get_commands_list
    rfl
  have h_gcl : get_commands_list fixture_exts .Normal (FPoint.mk 0 0) .Truncate
      GroupOptions.default .RequireExact [fixture_circle] =
      .ok [.Circle ⟨4, 4⟩ 2 fixture_options] := by
    unfold get_commands_list
    rw [if_neg (by decide : ¬(fixture_circle.attribute "display" = some "none")),
      if_neg (by decide : ¬(fixture_circle.tag = "layer" ∨ fixture_circle.tag = "g")),
      h_gct]
    simp only [RResult.bind]
    rw [h_add, fixture_create_command]
    simp only [RResult.bind]
    rw [h_nil]
  unfold parse_svg_image
  rw [show fixture_exts.parse_xml fixture_doc = some fixture_root from by
    show (if fixture_doc = fixture_doc then some fixture_root else none) =
      some fixture_root
    rw [if_pos rfl]]
  simp only []
  rw [show get_viewbox fixture_exts fixture_root =
    .ok (ViewBox.mk 0 0 10 10) from by decide]
  simp only [RResult.bind]
  rw [f32round_ten, fixture_pc1010]
  simp only []
  rw [h_tr]
  rw [show get_commands fixture_exts .Normal (FPoint.mk 0 0) .Truncate
    GroupOptions.default .RequireExact fixture_root =
    get_commands_list fixture_exts .Normal (FPoint.mk 0 0) .Truncate
      GroupOptions.default .RequireExact [fixture_circle] from rfl]
  rw [h_gcl]
  simp only [RResult.bind]
  rfl

/-! ### Claims C3, C4, C5, C7 -/

/-- C3 counterexample.  The fixture document carries the invalid color
string "zz0000" as the stroke of its circle; `try_from_hex` rejects it
with a typed error, yet `parse_svg_image` succeeds (the invalid color is
silently replaced by the default color), refuting the claim that
conversion returns a typed error for invalid color strings. -/
theorem c3_invalid_color_counterexample :
    Color.try_from_hex "zz0000" = .error (.InvalidColor "zz0000") ∧
    node_style fixture_circle "stroke" = some "zz0000" ∧
    parse_svg_image fixture_exts .Normal fixture_doc .Truncate .RequireExact =
      .ok fixture_image :=
  ⟨by decide, by decide, fixture_parse_eval⟩

/-- C3 amended.  An invalid or unsupported color string in a stroke or
fill does not abort the conversion: `Color::try_from_hex` does return a
typed `InvalidColor` error, but `create_command` replaces any such
failure with the default (all-zero) color and proceeds.  (Strings whose
first present two-digit groups parse but that are shorter than six hex
digits make `try_from_hex` panic instead.) -/
theorem c3_invalid_color_silently_defaulted (s : String) (e : Svg2PdcError)
    (h : Color.try_from_hex s = .error e) :
    resolve_color (some s) = .ok Color.default := by
  unfold resolve_color
  simp only []
  rw [h]

/-- Witness for the amended C3 at the invalid color string "zz0000". -/
theorem c3_invalid_color_silently_defaulted_witness :
    Color.try_from_hex "zz0000" = .error (.InvalidColor "zz0000") ∧
    resolve_color (some "zz0000") = .ok Color.default :=
  ⟨by decide,
    c3_invalid_color_silently_defaulted "zz0000" (.InvalidColor "zz0000") (by decide)⟩

/-- C4.  `parse_circle` does quantize the center with the literal
Normal precision (first conjunct: under a Precise-mode converter the
parsed center of the circle at (4, 4) is the Normal-precision point
(4, 4)).  But `DrawCommand::serialize` re-quantizes the stored center
with `options.precision`: under Precise the written center bytes hold
(32, 32) = 8 * (4, 4), not the Normal-precision (4, 4) the claim
describes — the serialized circle center IS precise-encoded. -/
theorem c4_circle_center_precise_scaled :
    parse_circle fixture_exts fixture_circle
        ⟨⟨0, 0⟩, 1, 192, 0, .Precise, .RequireExact⟩ =
      .ok (.Circle ⟨4, 4⟩ 2 ⟨⟨0, 0⟩, 1, 192, 0, .Precise, .RequireExact⟩) ∧
    DrawCommand.serialize
        (.Circle ⟨4, 4⟩ 2 ⟨⟨0, 0⟩, 1, 192, 0, .Precise, .RequireExact⟩) [] =
      (none, [2, 0, 192, 1, 0, 2, 0, 32, 0, 32, 0]) ∧
    FPoint.pebble_coordinates ⟨(4 : ℚ), (4 : ℚ)⟩ .Normal .RequireExact =
      .ok ⟨4, 4⟩ := by
  refine ⟨?_, ?_, fixture_pc44⟩
  · unfold parse_circle
    rw [show (fixture_circle.attribute "cx").bind fixture_exts.parse_f32 =
      some ((4 : ℚ)) from by decide]
    rw [show (fixture_circle.attribute "cy").bind fixture_exts.parse_f32 =
      some ((4 : ℚ)) from by decide]
    rw [show ((fixture_circle.attribute "r").or
        (fixture_circle.attribute "z")).bind fixture_exts.parse_f32 =
      some ((2 : ℚ)) from by decide]
    simp only []
    rw [fixture_pc44]
    simp only []
    rw [show satU16 ((2 : ℚ)) = 2 from by
      unfold satU16
      norm_num
      rfl]
  · have haddc : PebblePoint.addF ⟨4, 4⟩ ⟨0, 0⟩ = FPoint.mk (4 : ℚ) (4 : ℚ) := by
      unfold PebblePoint.addF
      rw [FPoint.mk.injEq]
      constructor
      · rw [show ((4 : ℕ) : ℚ) + 0 = ((4 : ℕ) : ℚ) by push_cast; ring,
          f32round_nat 4 (by norm_num)]
        push_cast
        ring
      · rw [show ((4 : ℕ) : ℚ) + 0 = ((4 : ℕ) : ℚ) by push_cast; ring,
          f32round_nat 4 (by norm_num)]
        push_cast
        ring
    have hpc : FPoint.pebble_coordinates (FPoint.mk (4 : ℚ) (4 : ℚ))
        .Precise .RequireExact = .ok ⟨32, 32⟩ := by
      have h := pebble_coordinates_nat_precise 4 4 .RequireExact
        (by norm_num) (by norm_num) (by norm_num) (by norm_num)
      norm_num at h
      exact h
    unfold DrawCommand.serialize
    simp only []
    rw [haddc, hpc]
    simp only []
    rfl

/-- C5.  In every image produced by the conversion entry point, a fill
color byte that quantizes to palette-black (all RGB index bits zero,
i.e. `is_black`) is forced to the "nothing" byte 0. -/
theorem c5_black_fill_byte_is_nothing (exts : Externals)
    (precision : Precision) (content : String)
    (truncate_color : TruncateColor) (conversion : Conversion)
    (img : PebbleImage) (cmd : DrawCommand)
    (h : parse_svg_image exts precision content truncate_color conversion =
      .ok img)
    (hc : cmd ∈ img.commands)
    (hb : PebbleColor.is_black ⟨cmd.options.fill_color⟩ = true) :
    cmd.options.fill_color = 0 := by
  obtain ⟨t, spc, fpc, swo, heq⟩ :=
    parse_svg_image_options _ _ _ _ _ _ h cmd hc
  rw [heq] at hb ⊢
  exact make_options_fill_invariant _ _ _ _ _ _ hb

/-- Witness for C5: the fixture circle has an opaque black fill (the
missing fill defaults to black), its quantized fill is palette-black,
and the emitted fill byte is 0. -/
theorem c5_black_fill_byte_is_nothing_witness :
    (parse_svg_image fixture_exts .Normal fixture_doc .Truncate .RequireExact =
        .ok fixture_image ∧
      DrawCommand.Circle ⟨4, 4⟩ 2 fixture_options ∈ fixture_image.commands ∧
      PebbleColor.is_black
        ⟨(DrawCommand.Circle ⟨4, 4⟩ 2 fixture_options).options.fill_color⟩ = true) ∧
    (DrawCommand.Circle ⟨4, 4⟩ 2 fixture_options).options.fill_color = 0 :=
  ⟨⟨fixture_parse_eval, List.Mem.head _, by decide⟩,
    c5_black_fill_byte_is_nothing fixture_exts .Normal fixture_doc .Truncate
      .RequireExact fixture_image (DrawCommand.Circle ⟨4, 4⟩ 2 fixture_options)
      fixture_parse_eval (List.Mem.head _) (by decide)⟩

/-- C7.  In every image produced by the conversion entry point, the
stroke width byte of a command is 0 exactly when its stroke color byte
is 0 (the cross-constraint pass collapses both sides to the same
state). -/
theorem c7_stroke_width_iff_stroke_color (exts : Externals)
    (precision : Precision) (content : String)
    (truncate_color : TruncateColor) (conversion : Conversion)
    (img : PebbleImage) (cmd : DrawCommand)
    (h : parse_svg_image exts precision content truncate_color conversion =
      .ok img)
    (hc : cmd ∈ img.commands) :
    (cmd.options.stroke_width = 0 ↔ cmd.options.stroke_color = 0) := by
  obtain ⟨t, spc, fpc, swo, heq⟩ :=
    parse_svg_image_options _ _ _ _ _ _ h cmd hc
  rw [heq]
  exact make_options_stroke_invariant _ _ _ _ _ _

/-- Witness for C7 on the fixture (stroke width 1, stroke color byte
192: both sides of the equivalence are false). -/
theorem c7_stroke_width_iff_stroke_color_witness :
    (parse_svg_image fixture_exts .Normal fixture_doc .Truncate .RequireExact =
        .ok fixture_image ∧
      DrawCommand.Circle ⟨4, 4⟩ 2 fixture_options ∈ fixture_image.commands) ∧
    ((DrawCommand.Circle ⟨4, 4⟩ 2 fixture_options).options.stroke_width = 0 ↔
      (DrawCommand.Circle ⟨4, 4⟩ 2 fixture_options).options.stroke_color = 0) :=
  ⟨⟨fixture_parse_eval, List.Mem.head _⟩,
    c7_stroke_width_iff_stroke_color fixture_exts .Normal fixture_doc .Truncate
      .RequireExact fixture_image (DrawCommand.Circle ⟨4, 4⟩ 2 fixture_options)
      fixture_parse_eval (List.Mem.head _)⟩

end Svg2Pdc
